import Mathlib

/-!
Verification development for the xhs content-pipeline scripts
(src/scripts/xhs_auto_pipeline.py, xhs_generate_content.py, xhs_publish.py).

All definitions are shallow embeddings translated from the Python source.
Machine strings are modelled as lists of unicode scalar characters
(Python `len`/slicing count code points, as does `List Char`).
JSON decoding (Python `json.loads`) is embedded as a strict
recursive-descent parser over the integer-number subset of JSON that the
repository's data uses; whitespace sets are the ASCII whitespace sets of
Python `str.strip` and of the `json` module.
-/

namespace XhsPipeline

/-- Left brace character, written numerically. -/
def lbC : Char := Char.ofNat 123

/-- Right brace character, written numerically. -/
def rbC : Char := Char.ofNat 125

/-- Double-quote character. -/
def qtC : Char := Char.ofNat 34

/-- Backslash character. -/
def bsC : Char := Char.ofNat 92

/-- Backtick character. -/
def btC : Char := Char.ofNat 96

/-- Whitespace recognised by Python `str.strip` / `str.lstrip` (ASCII part). -/
def pyWs (c : Char) : Bool :=
  c = ' ' || c = '\t' || c = '\n' || c = '\r' || c = Char.ofNat 11 || c = Char.ofNat 12

/-- Whitespace recognised by the Python `json` decoder. -/
def jsonWs (c : Char) : Bool :=
  c = ' ' || c = '\t' || c = '\n' || c = '\r'

/-- Whitespace recognised by `\s` in Python regular expressions (ASCII part). -/
def reWs (c : Char) : Bool :=
  c = ' ' || c = '\t' || c = '\n' || c = '\r' || c = Char.ofNat 11 || c = Char.ofNat 12

/-- Python `str.lstrip()` on a character list. -/
def pyLstrip (cs : List Char) : List Char := cs.dropWhile pyWs

/-- Python `str.rstrip()` on a character list. -/
def pyRstrip (cs : List Char) : List Char := (cs.reverse.dropWhile pyWs).reverse

/-- Python `str.strip()` on a character list. -/
def pyStrip (cs : List Char) : List Char := pyRstrip (pyLstrip cs)

/-- Python `str.split` on a single separator character (used for `split("\n")`). -/
def pySplitOn (sep : Char) : List Char → List (List Char)
  | [] => [[]]
  | c :: rest =>
    let r := pySplitOn sep rest
    if c = sep then [] :: r
    else
      match r with
      | [] => [[c]]
      | l :: ls => (c :: l) :: ls

/-- JSON values, with numbers restricted to integers (the subset the
repository's data uses; floats never occur in the modelled records). -/
inductive Json where
  | null : Json
  | bool (b : Bool) : Json
  | num (n : Int) : Json
  | str (s : List Char) : Json
  | arr (xs : List Json) : Json
  | obj (kvs : List (List Char × Json)) : Json
deriving Repr

/-- Structural equality of decoded JSON values, the embedding of Python
`==` on the results of `json.loads`. -/
def Json.beq : Json → Json → Bool
  | .null, .null => true
  | .bool a, .bool b => a == b
  | .num a, .num b => a == b
  | .str a, .str b => a == b
  | .arr [], .arr [] => true
  | .arr (x :: xs), .arr (y :: ys) => Json.beq x y && Json.beq (.arr xs) (.arr ys)
  | .obj [], .obj [] => true
  | .obj ((k, v) :: kvs), .obj ((k2, v2) :: kvs2) =>
      k == k2 && Json.beq v v2 && Json.beq (.obj kvs) (.obj kvs2)
  | _, _ => false

instance : BEq Json := ⟨Json.beq⟩

/-- Python `x in s` membership over a collection of decoded JSON values. -/
def jmem (v : Json) (s : List Json) : Bool :=
  s.any (fun w => Json.beq v w)

/-- Python dict lookup on a decoded object: later duplicate keys overwrite
earlier ones, so the last binding wins. -/
def jlookup : List (List Char × Json) → List Char → Option Json
  | [], _ => none
  | kv :: rest, k =>
    match jlookup rest k with
    | some v => some v
    | none => if kv.1 == k then some kv.2 else none

/-- Python `dict.get(k, d)`. -/
def jgetD (j : Json) (k : List Char) (d : Json) : Json :=
  match j with
  | .obj kvs => (jlookup kvs k).getD d
  | _ => d

/-- Python truthiness of a decoded JSON value. -/
def jtruthy : Json → Bool
  | .null => false
  | .bool b => b
  | .num n => n != 0
  | .str s => !s.isEmpty
  | .arr xs => !xs.isEmpty
  | .obj kvs => !kvs.isEmpty

/-- Python `len` on a decoded JSON value (`none` when `len` would raise). -/
def pyLen : Json → Option Nat
  | .str s => some s.length
  | .arr xs => some xs.length
  | .obj kvs => some kvs.length
  | _ => none

/-- Python slicing `x[:n]` on a decoded JSON value (`none` when it raises). -/
def pySliceTo (j : Json) (n : Nat) : Option Json :=
  match j with
  | .str s => some (.str (s.take n))
  | .arr xs => some (.arr (xs.take n))
  | _ => none

/-- Skip JSON whitespace, as the decoder does between tokens. -/
def jskip (cs : List Char) : List Char := cs.dropWhile jsonWs

/-- Value of one hexadecimal digit. -/
def hexVal (c : Char) : Option Nat :=
  if c.isDigit then some (c.toNat - 48)
  else if 'a' ≤ c && c ≤ 'f' then some (c.toNat - 87)
  else if 'A' ≤ c && c ≤ 'F' then some (c.toNat - 55)
  else none

/-- Decode a JSON string body after the opening quote, strict mode: raw
control characters are rejected, escape sequences are the standard eight
plus four-digit unicode escapes (surrogate halves left unmodelled). -/
def parseStrBody : List Char → Option (List Char × List Char)
  | [] => none
  | c :: rest =>
    if c = qtC then some ([], rest)
    else if c = bsC then
      match rest with
      | [] => none
      | e :: rest2 =>
        if e = qtC then (parseStrBody rest2).map (fun p => (qtC :: p.1, p.2))
        else if e = bsC then (parseStrBody rest2).map (fun p => (bsC :: p.1, p.2))
        else if e = '/' then (parseStrBody rest2).map (fun p => ('/' :: p.1, p.2))
        else if e = 'n' then (parseStrBody rest2).map (fun p => ('\n' :: p.1, p.2))
        else if e = 't' then (parseStrBody rest2).map (fun p => ('\t' :: p.1, p.2))
        else if e = 'r' then (parseStrBody rest2).map (fun p => ('\r' :: p.1, p.2))
        else if e = 'b' then (parseStrBody rest2).map (fun p => (Char.ofNat 8 :: p.1, p.2))
        else if e = 'f' then (parseStrBody rest2).map (fun p => (Char.ofNat 12 :: p.1, p.2))
        else if e = 'u' then
          match rest2 with
          | h1 :: h2 :: h3 :: h4 :: rest3 =>
            match hexVal h1, hexVal h2, hexVal h3, hexVal h4 with
            | some a, some b, some c1, some d =>
              let n := ((a * 16 + b) * 16 + c1) * 16 + d
              if n < 55296 then
                (parseStrBody rest3).map (fun p => (Char.ofNat n :: p.1, p.2))
              else none
            | _, _, _, _ => none
          | _ => none
        else none
    else if c.toNat < 32 then none
    else (parseStrBody rest).map (fun p => (c :: p.1, p.2))

/-- Does the remainder start a fraction or exponent part? Floats are outside
the modelled subset, so such numbers are rejected rather than misread. -/
def startsFrac : List Char → Bool
  | c :: _ => c = '.' || c = 'e' || c = 'E'
  | [] => false

/-- Numeric value of a digit run. -/
def digitsToNat (ds : List Char) : Nat :=
  ds.foldl (fun a c => a * 10 + (c.toNat - 48)) 0

/-- Decode a JSON number (integer subset, with the decoder's leading-zero
rule: after a leading `0` no further digits are consumed). -/
def parseNumAbs : Bool → List Char → Option (Json × List Char)
  | _, [] => none
  | neg, d :: rest =>
    if d = '0' then
      if startsFrac rest then none else some (.num 0, rest)
    else if d.isDigit then
      if startsFrac (rest.dropWhile Char.isDigit) then none
      else some
        (.num (if neg then -(digitsToNat (d :: rest.takeWhile Char.isDigit) : Int)
               else (digitsToNat (d :: rest.takeWhile Char.isDigit) : Int)),
         rest.dropWhile Char.isDigit)
    else none

/-- Decode a JSON number (integer subset, with the decoder's leading-zero
rule: after a leading `0` no further digits are consumed). -/
def parseNum (cs : List Char) : Option (Json × List Char) :=
  if cs.headD ' ' = '-' then parseNumAbs true cs.tail else parseNumAbs false cs

mutual

/-- Decode one JSON value at the head of the input (no leading whitespace).
Fuel only bounds recursion depth; `jloadsL` supplies an ample amount. -/
def parseVal : Nat → List Char → Option (Json × List Char)
  | 0, _ => none
  | Nat.succ f, cs =>
    match cs with
    | [] => none
    | c :: rest =>
      if c = lbC then parseObjTail f (jskip rest)
      else if c = '[' then parseArrTail f (jskip rest)
      else if c = qtC then (parseStrBody rest).map (fun p => (.str p.1, p.2))
      else if c = '-' || c.isDigit then parseNum cs
      else if ['t', 'r', 'u', 'e'].isPrefixOf cs then some (.bool true, cs.drop 4)
      else if ['f', 'a', 'l', 's', 'e'].isPrefixOf cs then some (.bool false, cs.drop 5)
      else if ['n', 'u', 'l', 'l'].isPrefixOf cs then some (.null, cs.drop 4)
      else none

/-- Decode the inside of an object after the opening brace and whitespace. -/
def parseObjTail : Nat → List Char → Option (Json × List Char)
  | 0, _ => none
  | Nat.succ f, cs =>
    match cs with
    | [] => none
    | c :: rest =>
      if c = rbC then some (.obj [], rest)
      else (parseObjMems f cs).map (fun p => (.obj p.1, p.2))

/-- Decode one or more `key: value` members followed by the closing brace. -/
def parseObjMems : Nat → List Char → Option (List (List Char × Json) × List Char)
  | 0, _ => none
  | Nat.succ f, cs =>
    match cs with
    | [] => none
    | c :: rest =>
      if c = qtC then
        (parseStrBody rest).bind (fun kr =>
          if (jskip kr.2).headD ' ' = ':' then
            (parseVal f (jskip (jskip kr.2).tail)).bind (fun vr =>
              if (jskip vr.2).headD ' ' = ',' then
                (parseObjMems f (jskip (jskip vr.2).tail)).map
                  (fun p => ((kr.1, vr.1) :: p.1, p.2))
              else if (jskip vr.2).headD ' ' = rbC then
                some ([(kr.1, vr.1)], (jskip vr.2).tail)
              else none)
          else none)
      else none

/-- Decode the inside of an array after the opening bracket and whitespace. -/
def parseArrTail : Nat → List Char → Option (Json × List Char)
  | 0, _ => none
  | Nat.succ f, [] => (parseArrElems f []).map (fun p => (.arr p.1, p.2))
  | Nat.succ f, c :: rest =>
    if c = ']' then some (.arr [], rest)
    else (parseArrElems f (c :: rest)).map (fun p => (.arr p.1, p.2))

/-- Decode one or more array elements followed by the closing bracket. -/
def parseArrElems : Nat → List Char → Option (List Json × List Char)
  | 0, _ => none
  | Nat.succ f, cs =>
    (parseVal f cs).bind (fun vr =>
      if (jskip vr.2).headD ' ' = ',' then
        (parseArrElems f (jskip (jskip vr.2).tail)).map (fun p => (vr.1 :: p.1, p.2))
      else if (jskip vr.2).headD ' ' = ']' then some ([vr.1], (jskip vr.2).tail)
      else none)

end

/-- Embedding of `json.loads` on a character list: decode one value and
require only whitespace to remain. -/
def jloadsL (cs : List Char) : Option Json :=
  match parseVal (3 * cs.length + 3) (jskip cs) with
  | some (v, rest) => if (jskip rest).isEmpty then some v else none
  | none => none

/-- Dropping a prefix never lengthens a list. -/
theorem dropWhile_length_le (p : Char → Bool) (l : List Char) :
    (l.dropWhile p).length ≤ l.length := by
  induction l with
  | nil => simp [List.dropWhile]
  | cons c rest ih =>
    by_cases h : p c
    · simp only [List.dropWhile, h]
      simp
      omega
    · simp [List.dropWhile, h]

/-- First half of `_fix_json` (xhs_generate_content.py): the global
substitution removing a comma that precedes optional whitespace and a
closing brace or bracket, scanning left to right as `re.sub` does. -/
def rtcF : Nat → List Char → List Char
  | 0, cs => cs
  | _, [] => []
  | Nat.succ f, c :: rest =>
    if c = ',' then
      if (rest.dropWhile reWs).headD ' ' = rbC ||
          (rest.dropWhile reWs).headD ' ' = ']' then
        (rest.dropWhile reWs).headD ' ' :: rtcF f (rest.dropWhile reWs).tail
      else c :: rtcF f rest
    else c :: rtcF f rest

/-- The trailing-comma regex pass, driven by a length fuel: each step
consumes at least one input character, so the input's length is always
enough fuel. -/
def rtc (cs : List Char) : List Char := rtcF cs.length cs

/-- Lookahead verdict of the repair walk: after a quote, is the remainder
(already left-stripped) empty or opening with one of the four structural
delimiters, so that the quote closes the string? -/
def isStructLookahead (r : List Char) : Bool :=
  r.isEmpty || (r.headD ' ' = ',' || r.headD ' ' = ':' ||
    r.headD ' ' = rbC || r.headD ' ' = ']')

/-- Second half of `_fix_json`: the character walk that escapes quotes
which the lookahead classifies as content rather than as a structural
closing quote, and rewrites raw newlines inside strings. -/
def fixWalk : Bool → List Char → List Char
  | _, [] => []
  | false, c :: rest => c :: fixWalk (c == qtC) rest
  | true, c :: rest =>
    if c = bsC then
      match rest with
      | d :: rest2 => bsC :: d :: fixWalk true rest2
      | [] => [bsC]
    else if c = '\n' then bsC :: 'n' :: fixWalk true rest
    else if c = qtC then
      if isStructLookahead (rest.dropWhile pyWs) then qtC :: fixWalk false rest
      else bsC :: qtC :: fixWalk true rest
    else c :: fixWalk true rest

/-- Embedding of `_fix_json`: trailing-comma removal followed by the
quote-repair walk. -/
def fixJson (cs : List Char) : List Char := fixWalk false (rtc cs)

/-- The brace-depth scan of `extract_json`'s final fallback, oblivious to
string state: returns the offset of the first character at which the depth
returns to zero. The scan starts at the first left brace, so depth is
incremented before it can be tested. -/
def braceSpan : List Char → Int → Option Nat
  | [], _ => none
  | c :: rest, d =>
    if c = rbC && (if c = lbC then d + 1 else if c = rbC then d - 1 else d) = 0
    then some 0
    else (braceSpan rest
      (if c = lbC then d + 1 else if c = rbC then d - 1 else d)).map (· + 1)

/-- Three backticks, the markdown fence marker. -/
def fenceMark : List Char := [btC, btC, btC]

/-- Index before which fenced lines are kept: the largest line index `i > 0`
whose stripped content is a bare closing fence, or the number of lines when
there is none (the backward scan of `extract_json`). -/
def fenceEnd (lines : List (List Char)) : Nat :=
  (((List.range lines.length).filter
      (fun i => decide (0 < i) && (pyStrip ((lines.drop i).headD []) == fenceMark))).getLast?).getD
    lines.length

/-- The text preprocessing of `extract_json`: strip, then remove a leading
markdown code fence and its matching closing line, then strip again. -/
def preprocess (raw : List Char) : List Char :=
  let text := pyStrip raw
  if fenceMark.isPrefixOf text then
    let lines := pySplitOn '\n' text
    pyStrip (List.intercalate ['\n'] ((lines.drop 1).take (fenceEnd lines - 1)))
  else text

/-- Embedding of `extract_json` (xhs_generate_content.py): the ordered
fallback chain — strict decode, repair then decode, then the brace-matching
fallback on the substring from the first left brace to the first
depth-zero closing brace, tried strictly and then repaired. Failure
carries the length of the preprocessed text, as the `ValueError` message
does. -/
def extractJsonL (raw : List Char) : Except Nat Json :=
  let text := preprocess raw
  match jloadsL text with
  | some v => .ok v
  | none =>
    match jloadsL (fixJson text) with
    | some v => .ok v
    | none =>
      match text.findIdx? (fun c => c == lbC) with
      | none => .error text.length
      | some start =>
        match braceSpan (text.drop start) 0 with
        | none => .error text.length
        | some k =>
          let candidate := (text.drop start).take (k + 1)
          match jloadsL candidate with
          | some v => .ok v
          | none =>
            match jloadsL (fixJson candidate) with
            | some v => .ok v
            | none => .error text.length

/-- String-level wrapper of the recovery parser. -/
def extractJson (s : String) : Except Nat Json := extractJsonL s.toList

/-- Strict attribute access `x.get(k, d)`: raises (models as `.error`) when
the receiver is not a dict. -/
def jgetEx (j : Json) (k : List Char) (d : Json) : Except Unit Json :=
  match j with
  | .obj kvs => .ok ((jlookup kvs k).getD d)
  | _ => .error ()

/-- Python `for x in j`: lists yield elements, strings yield one-character
strings, dicts yield their keys, everything else raises. -/
def toIter : Json → Except Unit (List Json)
  | .arr xs => .ok xs
  | .str s => .ok (s.map (fun c => .str [c]))
  | .obj kvs => .ok (kvs.map (fun kv => .str kv.1))
  | _ => .error ()

/-- Python `kw.get("word", "") if isinstance(kw, dict) else kw[0]`. -/
def kwWord : Json → Except Unit Json
  | .obj kvs => .ok ((jlookup kvs "word".toList).getD (.str []))
  | .arr (x :: _) => .ok x
  | .str (c :: _) => .ok (.str [c])
  | _ => .error ()

/-- The keyword tiers of `select_topic_from_trending`: first keyword that is
truthy, not already published, and of length at least two. -/
def scanKws (published : List Json) : List Json → Except Unit (Option Json)
  | [] => .ok none
  | kw :: rest =>
    match kwWord kw with
    | .error _ => .error ()
    | .ok word =>
      if jtruthy word then
        if jmem word published then scanKws published rest
        else
          match pyLen word with
          | none => .error ()
          | some n => if n ≥ 2 then .ok (some word) else scanKws published rest
      else scanKws published rest

/-- The note-title tier of `select_topic_from_trending`: first truthy title
not already published, returned truncated to its first 20 characters. -/
def scanTitles (published : List Json) : List Json → Except Unit (Option Json)
  | [] => .ok none
  | note :: rest =>
    match note with
    | .obj kvs =>
      if jtruthy ((jlookup kvs "title".toList).getD (.str [])) then
        if jmem ((jlookup kvs "title".toList).getD (.str [])) published then
          scanTitles published rest
        else
          match pySliceTo ((jlookup kvs "title".toList).getD (.str [])) 20 with
          | some t => .ok (some t)
          | none => .error ()
      else scanTitles published rest
    | _ => .error ()

/-- Embedding of `select_topic_from_trending` (xhs_auto_pipeline.py) on the
decoded trending file: weighted keywords, then note titles truncated to 20
characters, then unweighted keywords. `.error` models an uncaught Python
exception on malformed data. -/
def selectTopicFromTrending (data : Json) (published : List Json) :
    Except Unit (Option Json) :=
  match jgetEx data "analysis".toList (.obj []) with
  | .error _ => .error ()
  | .ok analysis =>
    match jgetEx analysis "top_weighted_keywords".toList (.arr []) with
    | .error _ => .error ()
    | .ok weighted =>
      match toIter weighted with
      | .error _ => .error ()
      | .ok kws =>
        match scanKws published kws with
        | .error _ => .error ()
        | .ok (some w) => .ok (some w)
        | .ok none =>
          match jgetEx data "notes".toList (.arr []) with
          | .error _ => .error ()
          | .ok notes =>
            match toIter notes with
            | .error _ => .error ()
            | .ok ns =>
              match scanTitles published ns with
              | .error _ => .error ()
              | .ok (some t) => .ok (some t)
              | .ok none =>
                match jgetEx analysis "top_keywords".toList (.arr []) with
                | .error _ => .error ()
                | .ok top =>
                  match toIter top with
                  | .error _ => .error ()
                  | .ok tks => scanKws published tks

/-- Embedding of `count_today_posts`: the number of non-blank lines of
today's log file (success flags are never inspected). -/
def countTodayPosts (lines : List (List Char)) : Nat :=
  (lines.filter (fun l => !(pyStrip l).isEmpty)).length

/-- One file's contribution to `get_published_topics`: lines are decoded in
order and truthy `title` values collected; the first line that fails to
decode as a dict aborts the file but keeps what was already collected. -/
def addFileTopics (acc : List Json) : List (List Char) → List Json
  | [] => acc
  | line :: rest =>
    match jloadsL line with
    | none => acc
    | some (.obj kvs) =>
      match jlookup kvs "title".toList with
      | some t => if jtruthy t then addFileTopics (acc ++ [t]) rest
                  else addFileTopics acc rest
      | none => addFileTopics acc rest
    | some _ => acc

/-- Embedding of `get_published_topics`: the union over every persisted log
file of the truthy title fields of its decodable lines. -/
def getPublishedTopics (files : List (List (List Char))) : List Json :=
  files.foldl addFileTopics []

/-- Key occurrence test on a decoded object's bindings. -/
def anyKey (kvs : List (List Char × Json)) (k : List Char) : Bool :=
  kvs.any (fun kv => kv.1 == k)

/-- In-place replacement of one binding when its key matches. -/
def repKV (k : List Char) (v : Json) (kv : List Char × Json) :
    List Char × Json :=
  if kv.1 == k then (k, v) else kv

/-- Python dict assignment `d[k] = v`: replaces in place, appends when new. -/
def setKey (kvs : List (List Char × Json)) (k : List Char) (v : Json) :
    List (List Char × Json) :=
  if anyKey kvs k then kvs.map (repKV k v) else kvs ++ [(k, v)]

/-- One conditional hard-truncation of `generate_copywriting`'s validation:
`if len(result.get(k, "")) > limit: result[k] = result[k][:limit]`. -/
def truncField (kvs : List (List Char × Json)) (k : List Char) (limit : Nat) :
    Option (List (List Char × Json)) :=
  match pyLen ((jlookup kvs k).getD (.str [])) with
  | none => none
  | some n =>
    if n > limit then
      match jlookup kvs k with
      | some tv => (pySliceTo tv limit).map (setKey kvs k)
      | none => none
    else some kvs

/-- One unconditional slice of the validation:
`result[k] = result.get(k, [])[:limit]`. -/
def sliceField (kvs : List (List Char × Json)) (k : List Char) (limit : Nat) :
    Option (List (List Char × Json)) :=
  (pySliceTo ((jlookup kvs k).getD (.arr [])) limit).map (setKey kvs k)

/-- Embedding of the post-decode validation block of `generate_copywriting`
(xhs_generate_content.py): title capped at 50, content at 1000, topics at
10 entries, image prompts at the requested image count. `none` models a
raised exception on an unsliceable field. -/
def validateResult (r : Json) (imageCount : Nat) : Option Json :=
  match r with
  | .obj kvs0 =>
    (truncField kvs0 "title".toList 50).bind fun kvs1 =>
    (truncField kvs1 "content".toList 1000).bind fun kvs2 =>
    (sliceField kvs2 "topics".toList 10).bind fun kvs3 =>
    (sliceField kvs3 "image_prompts".toList imageCount).map .obj
  | _ => none

/-- Lowercase hexadecimal digit. -/
def hexDigit (n : Nat) : Char :=
  if n < 10 then Char.ofNat (48 + n) else Char.ofNat (87 + n)

/-- Escaping of one character by `json.dumps` with `ensure_ascii=False`. -/
def escChar (c : Char) : List Char :=
  if c = qtC then [bsC, qtC]
  else if c = bsC then [bsC, bsC]
  else if c = '\n' then [bsC, 'n']
  else if c = '\t' then [bsC, 't']
  else if c = '\r' then [bsC, 'r']
  else if c = Char.ofNat 8 then [bsC, 'b']
  else if c = Char.ofNat 12 then [bsC, 'f']
  else if c.toNat < 32 then
    [bsC, 'u', '0', '0', hexDigit (c.toNat / 16), hexDigit (c.toNat % 16)]
  else [c]

/-- Flattened escaping of a whole string body. -/
def escList (s : List Char) : List Char :=
  (s.map escChar).flatten

/-- Serialised JSON string literal. -/
def jstr (s : List Char) : List Char :=
  qtC :: escList s ++ [qtC]

/-- Decimal digit character. -/
def digitChar (n : Nat) : Char :=
  if n = 0 then '0' else if n = 1 then '1' else if n = 2 then '2'
  else if n = 3 then '3' else if n = 4 then '4' else if n = 5 then '5'
  else if n = 6 then '6' else if n = 7 then '7' else if n = 8 then '8'
  else '9'

/-- Decimal digits of a natural number. -/
def natDigits (n : Nat) : List Char :=
  if h : n < 10 then [digitChar n]
  else natDigits (n / 10) ++ [digitChar (n % 10)]
decreasing_by exact Nat.div_lt_self (by omega) (by omega)

/-- Serialised JSON array of string literals, `json.dumps` separators. -/
def jarrBody : List (List Char) → List Char
  | [] => []
  | [t] => jstr t
  | t :: t2 :: ts => jstr t ++ ", ".toList ++ jarrBody (t2 :: ts)

/-- Serialised JSON array of string literals, `json.dumps` separators. -/
def jarrStr (ts : List (List Char)) : List Char :=
  '[' :: jarrBody ts ++ [']']

/-- The publish log record of xhs_publish.py, as written after the publish
call returns: request data plus the result's success flag, url, message. -/
structure PublishLogEntry where
  timestamp : List Char
  title : List Char
  contentLength : Nat
  imageCount : Nat
  topics : List (List Char)
  success : Bool
  url : Option (List Char)
  message : List Char

/-- Serialisation of one log line, as `json.dumps(log_entry,
ensure_ascii=False)` lays it out. -/
def jdumpEntry (e : PublishLogEntry) : List Char :=
  [lbC] ++ jstr "timestamp".toList ++ ": ".toList ++ jstr e.timestamp
    ++ ", ".toList ++ jstr "title".toList ++ ": ".toList ++ jstr e.title
    ++ ", ".toList ++ jstr "content_length".toList ++ ": ".toList
    ++ natDigits e.contentLength
    ++ ", ".toList ++ jstr "image_count".toList ++ ": ".toList
    ++ natDigits e.imageCount
    ++ ", ".toList ++ jstr "topics".toList ++ ": ".toList ++ jarrStr e.topics
    ++ ", ".toList ++ jstr "result".toList ++ ": ".toList
    ++ [lbC] ++ jstr "success".toList ++ ": ".toList
    ++ (if e.success then "true".toList else "false".toList)
    ++ ", ".toList ++ jstr "url".toList ++ ": ".toList
    ++ (match e.url with | none => "null".toList | some u => jstr u)
    ++ ", ".toList ++ jstr "message".toList ++ ": ".toList ++ jstr e.message
    ++ [rbC] ++ [rbC]

/-- The decoded value the log line denotes. -/
def entryJson (e : PublishLogEntry) : Json :=
  .obj [("timestamp".toList, .str e.timestamp),
        ("title".toList, .str e.title),
        ("content_length".toList, .num e.contentLength),
        ("image_count".toList, .num e.imageCount),
        ("topics".toList, .arr (e.topics.map .str)),
        ("result".toList, .obj [
          ("success".toList, .bool e.success),
          ("url".toList, match e.url with | none => .null | some u => .str u),
          ("message".toList, .str e.message)])]

/-- CLI arguments of xhs_publish.py. -/
structure PubArgs where
  title : List Char
  content : List Char
  images : List Char
  topics : List Char
  dryRun : Bool

/-- Embedding of `parse_list_arg`: split on commas, strip, drop blanks. -/
def parseListArg (v : List Char) : List (List Char) :=
  if v.isEmpty then []
  else ((pySplitOn ',' v).map pyStrip).filter (fun i => !i.isEmpty)

/-- Final path component, the `name` of a `pathlib` path. -/
def pathName (p : List Char) : List Char :=
  ((pySplitOn '/' p).getLast?).getD []

/-- Embedding of `pathlib`'s `suffix`: the final dot segment of the name,
when the dot is neither the first nor the last character. -/
def pathSuffix (p : List Char) : List Char :=
  let name := pathName p
  match ((List.range name.length).filter
          (fun i => (name.drop i).headD ' ' == '.')).getLast? with
  | some i => if 0 < i && i < name.length - 1 then name.drop i else []
  | none => []

/-- Image extensions accepted by `validate_images`. -/
def validExts : List (List Char) :=
  [".jpg".toList, ".jpeg".toList, ".png".toList, ".webp".toList, ".gif".toList]

/-- Embedding of `validate_images` as its boolean verdict: one to nine
paths, each existing with an accepted extension. -/
def validImages (paths : List (List Char)) (fileExists : List Char → Bool) : Bool :=
  if paths.isEmpty then false
  else if paths.length > 9 then false
  else paths.all (fun p =>
    fileExists p && validExts.any (fun e => e == (pathSuffix p).map Char.toLower))

/-- Outcome of the publish call as the script observes it: the toolkit
returned a result object, or raised. -/
inductive PublishCall where
  | returns (success : Bool) (url : Option (List Char)) (message : List Char)
  | raises

/-- Terminal outcome of xhs_publish.py's `main`. -/
inductive PubOutcome where
  | authRequired
  | validationError
  | dryRunOk
  | published (url : Option (List Char))
  | rejected (message : List Char)
  | excError

/-- Embedding of xhs_publish.py `main` after argument parsing: cookie and
field validation, dry-run, then the publish call; the pair's second
component is the list of log lines appended to today's log file. -/
def publishMain (args : PubArgs) (cookiesValid : Bool)
    (fileExists : List Char → Bool) (call : PublishCall)
    (timestamp : List Char) : PubOutcome × List (List Char) :=
  if !cookiesValid then (.authRequired, [])
  else if args.title.length > 50 then (.validationError, [])
  else if args.content.length > 1000 then (.validationError, [])
  else
    let images := parseListArg args.images
    if !validImages images fileExists then (.validationError, [])
    else
      let topics := parseListArg args.topics
      if topics.length > 10 then (.validationError, [])
      else if args.dryRun then (.dryRunOk, [])
      else
        match call with
        | .raises => (.excError, [])
        | .returns success url message =>
          let e : PublishLogEntry :=
            { timestamp := timestamp, title := args.title,
              contentLength := args.content.length,
              imageCount := images.length, topics := topics,
              success := success, url := url, message := message }
          if success then (.published url, [jdumpEntry e])
          else (.rejected message, [jdumpEntry e])

/-- Remainder of a character list after the first occurrence of a
separator, the effect of Python `s.split(sep, 1)[1]` (`none` models the
`IndexError` when the separator is absent). -/
def splitFirst : List Char → Char → Option (List Char)
  | [], _ => none
  | c :: rest, sep => if c = sep then some rest else splitFirst rest sep

/-- Result of the secondary HTTP fetch of an image URL in method 3 of
`generate_images`: a 200 response whose bytes save successfully or not,
a non-200 response, or a raised request error. -/
inductive FetchRes where
  | httpOk (saveOk : Bool)
  | httpBad
  | raises

/-- One image-generation attempt as the script observes it: the POST
raised (or its body failed to decode / lacked the message keys), returned
a non-200 status, or returned a decoded `message` value. -/
inductive AttemptRes where
  | raises
  | httpBad
  | ok (message : Json)

/-- External behaviour surrounding one `generate_images` call: the
per-prompt per-attempt response, whether a base64 payload decodes and
saves as an image, the URL the two regex patterns of method 3 find in a
string body (the regex search is modelled as this oracle), and the
secondary fetch of such a URL. -/
structure ImgEnv where
  oracle : Nat → Nat → AttemptRes
  decodeOk : List Char → Bool
  findUrl : List Char → Option (List Char)
  fetch : List Char → FetchRes

/-- Method 1 of `generate_images`: scan `message.images` for a dict whose
`image_url.url` is a data URL; decode and save its base64 payload.
`.error` models an exception aborting the attempt, `.ok true` a saved
image, `.ok false` no image from this method. -/
def scanImgObjs (env : ImgEnv) : List Json → Except Unit Bool
  | [] => .ok false
  | o :: rest =>
    match o with
    | .obj kvs =>
      match (jlookup kvs "image_url".toList).getD (.obj []) with
      | .obj iukvs =>
        match (jlookup iukvs "url".toList).getD (.str []) with
        | .str ul =>
          if "data:".toList.isPrefixOf ul then
            match splitFirst ul ',' with
            | none => .error ()
            | some b64 => if env.decodeOk b64 then .ok true else .error ()
          else scanImgObjs env rest
        | _ => .error ()
      | _ => .error ()
    | _ => scanImgObjs env rest

/-- The `b64` candidate computed for one content part by method 2's
`if/elif` chain (`.ok none` when no branch assigned a payload). -/
def partB64 (kvs : List (List Char × Json)) : Except Unit (Option Json) :=
  if jlookup kvs "type".toList == some (.str "image".toList) then
    match (jlookup kvs "image".toList).getD (.obj []) with
    | .obj ikvs =>
      match jlookup ikvs "data".toList with
      | some dv =>
        if jtruthy dv then .ok (some dv)
        else .ok (some ((jlookup ikvs "b64_json".toList).getD (.str [])))
      | none => .ok (some ((jlookup ikvs "b64_json".toList).getD (.str [])))
    | _ => .error ()
  else if jlookup kvs "type".toList == some (.str "image_url".toList) then
    match (jlookup kvs "image_url".toList).getD (.obj []) with
    | .obj iukvs =>
      match (jlookup iukvs "url".toList).getD (.str []) with
      | .str ul =>
        if "data:".toList.isPrefixOf ul then
          match splitFirst ul ',' with
          | none => .error ()
          | some b64 => .ok (some (.str b64))
        else .ok none
      | _ => .error ()
    | _ => .error ()
  else
    match jlookup kvs "inline_data".toList with
    | some inl =>
      if jtruthy inl then
        match inl with
        | .obj inkvs => .ok (some ((jlookup inkvs "data".toList).getD (.str [])))
        | _ => .error ()
      else .ok none
    | none => .ok none

/-- Method 2 of `generate_images`: scan list-structured content for the
first part yielding a truthy base64 payload, then decode and save it. -/
def scanParts (env : ImgEnv) : List Json → Except Unit Bool
  | [] => .ok false
  | p :: rest =>
    match p with
    | .obj kvs =>
      match partB64 kvs with
      | .error _ => .error ()
      | .ok b64V =>
        match b64V with
        | some v =>
          if jtruthy v then
            match v with
            | .str s => if env.decodeOk s then .ok true else .error ()
            | _ => .error ()
          else scanParts env rest
        | none => scanParts env rest
    | _ => scanParts env rest

/-- Method 3 of `generate_images`: a URL found in a plain-string body is
fetched and its bytes saved. -/
def fetchUrlImage (env : ImgEnv) (s : List Char) : Except Unit Bool :=
  match env.findUrl s with
  | none => .ok false
  | some u =>
    match env.fetch u with
    | .httpOk true => .ok true
    | .httpOk false => .error ()
    | .httpBad => .ok false
    | .raises => .error ()

/-- The three extraction methods applied to one decoded `message`, in
order, mirroring lines 314 to 356 of xhs_generate_content.py. -/
def msgExtract (env : ImgEnv) (msg : Json) : Except Unit Bool :=
  match msg with
  | .obj kvs =>
    match toIter ((jlookup kvs "images".toList).getD (.arr [])) with
    | .error _ => .error ()
    | .ok objs =>
      match scanImgObjs env objs with
      | .error _ => .error ()
      | .ok true => .ok true
      | .ok false =>
        match (jlookup kvs "content".toList).getD (.str []) with
        | .arr parts => scanParts env parts
        | .str s => if s.isEmpty then .ok false else fetchUrlImage env s
        | _ => .ok false
  | _ => .error ()

/-- Did attempt `a` for prompt `i` end with a saved image? Exceptions and
failed extractions alike leave the attempt unsaved. -/
def attemptSaved (env : ImgEnv) (i a : Nat) : Bool :=
  match env.oracle i a with
  | .raises => false
  | .httpBad => false
  | .ok msg =>
    match msgExtract env msg with
    | .ok true => true
    | _ => false

/-- A prompt succeeds when one of its three attempts (`max_retries = 2`)
saves an image; earlier failures only trigger the retry. -/
def promptSaved (env : ImgEnv) (i : Nat) : Bool :=
  attemptSaved env i 0 || attemptSaved env i 1 || attemptSaved env i 2

/-- Deterministic per-index output path `image_{i+1}.png`. -/
def imgPath (outputDir : List Char) (i : Nat) : List Char :=
  outputDir ++ "/image_".toList ++ natDigits (i + 1) ++ ".png".toList

/-- The batch loop of `generate_images`: each successful prompt appends
its saved path, each failed prompt is skipped. -/
def generateImagesLoop (env : ImgEnv) (outputDir : List Char) :
    Nat → List (List Char) → List (List Char)
  | _, [] => []
  | i, _ :: rest =>
    (if promptSaved env i then [imgPath outputDir i] else [])
      ++ generateImagesLoop env outputDir (i + 1) rest

/-- Embedding of `generate_images` (xhs_generate_content.py): missing
credentials raise before any request; otherwise the batch loop runs to
completion and returns the saved paths. Request construction, base64 and
image decoding, and the regex URL search live in the oracles of `ImgEnv`. -/
def generateImages (apiKey baseUrl model : List Char)
    (prompts : List (List Char)) (outputDir : List Char) (env : ImgEnv) :
    Except Unit (List (List Char)) :=
  if apiKey.isEmpty || baseUrl.isEmpty || model.isEmpty then .error ()
  else .ok (generateImagesLoop env outputDir 0 prompts)

/-- One line of a child script's standard output as `run_script` sees it:
either a printed JSON object (always a dict, since only lines opening with
a brace are decoded) or a `MEDIA:` attachment line. -/
inductive StdoutLine where
  | jsonLine (kvs : List (List Char × Json))
  | mediaLine (path : List Char)

/-- The result-extraction of `run_script` (xhs_auto_pipeline.py): the last
JSON line of the child's output, or a fallback error dict when there is
none (the fallback's stdout/stderr tail fields are I/O plumbing and
omitted here). -/
def parseStdout (lines : List StdoutLine) : Json :=
  match lines.reverse.findSome?
      (fun l => match l with | .jsonLine kvs => some (Json.obj kvs) | _ => none) with
  | some j => j
  | none => .obj [("status".toList, .str "error".toList)]

/-- CLI arguments of xhs_auto_pipeline.py. -/
structure PipeArgs where
  mode : List Char
  category : List Char
  keyword : List Char
  skipTrending : Bool
  configFlag : Bool
  setMode : List Char

/-- Typed model of the pipeline configuration record that `load_config`
returns (its defaults are well formed; only these fields are read). -/
structure PipeConfig where
  mode : List Char
  category : List Char
  style : List Char
  imageCount : Nat
  skipPublished : Bool
  maxDaily : Nat

/-- External calls the orchestrator can issue through `run_script`. -/
inductive ScriptCall where
  | status
  | trending (category keyword : List Char)
  | generate (topic : List Char) (style : List Char) (imageCount : Nat)
      (withTrendingFile : Bool)
  | publish (title content images : List Char) (topics : Option (List Char))

/-- Terminal outcomes of xhs_auto_pipeline.py's `main`; payload fields are
the values placed in the final printed JSON record. `crash` models an
uncaught Python exception. -/
inductive PipeOutcome where
  | modeSet
  | configShown (todayPosts : Nat)
  | limitReached (today : Nat)
  | authRequired
  | genFailed
  | previewReady (title content topics images outputDir : Json)
  | noImages (title content topics : Json)
  | publishedOk (url : Json) (title : Json) (todayPosts : Nat)
  | publishFailed (title content : Json) (images : List Char)
  | crash

/-- External world of one pipeline run: today's log lines, the persisted
publish log files, each child script's standard output, and the decoded
content of the scraped or most recent trending file (`none` = missing). -/
structure PipeEnv where
  todayLines : List (List Char)
  publishedFiles : List (List (List Char))
  statusOut : List StdoutLine
  trendingOut : List StdoutLine
  scrapedData : Option Json
  latestData : Option Json
  genOut : List StdoutLine
  pubOut : List StdoutLine

/-- Python `",".join(x)` on a decoded JSON value: joins an iterable of
strings, `none` when it would raise. -/
def joinComma : Json → Option (List Char)
  | .str s => some (List.intercalate [','] (s.map (fun c => [c])))
  | .arr xs =>
    if xs.all (fun x => match x with | .str _ => true | _ => false) then
      some (List.intercalate [','] (xs.map (fun x => match x with | .str s => s | _ => [])))
    else none
  | .obj kvs => some (List.intercalate [','] (kvs.map (·.1)))
  | _ => none

/-- The publish step of the orchestrator (auto mode with a truthy image
list): build the publish arguments and read the publish result. -/
def pipePublish (env : PipeEnv) (package : Json) (images : Json)
    (todayCount : Nat) (trace : List ScriptCall) :
    PipeOutcome × List ScriptCall :=
  let title := jgetD package "title".toList (.str [])
  let content := jgetD package "content".toList (.str [])
  match title, content, joinComma images with
  | .str tl, .str cl, some imgJoined =>
    let topicsV := jgetD package "topics".toList .null
    let topicsArg : Option (Option (List Char)) :=
      if jtruthy topicsV then
        match joinComma topicsV with
        | some j => some (some j)
        | none => none
      else some none
    match topicsArg with
    | none => (.crash, trace)
    | some targ =>
      let trace2 := trace ++ [ScriptCall.publish tl cl imgJoined targ]
      let pubRes := parseStdout env.pubOut
      if jgetD pubRes "status".toList .null == Json.str "success".toList then
        (.publishedOk (jgetD pubRes "url".toList (.str [])) title (todayCount + 1),
         trace2)
      else (.publishFailed title content imgJoined, trace2)
  | _, _, _ => (.crash, trace)

/-- Embedding of xhs_auto_pipeline.py `main`: config-management branches,
the daily-quota gate, login check, trending scrape with fallback to the
latest saved snapshot, topic selection with default fallback, generation,
and the preview / auto-publish split. The second component is the ordered
trace of external `run_script` calls. -/
def pipelineRun (args : PipeArgs) (cfg : PipeConfig) (env : PipeEnv) :
    PipeOutcome × List ScriptCall :=
  if !args.setMode.isEmpty then (.modeSet, [])
  else if args.configFlag then (.configShown (countTodayPosts env.todayLines), [])
  else
    let mode := if !args.mode.isEmpty then args.mode else cfg.mode
    let category := if !args.category.isEmpty then args.category else cfg.category
    let todayCount := countTodayPosts env.todayLines
    if todayCount ≥ cfg.maxDaily then (.limitReached todayCount, [])
    else
      let statusRes := parseStdout env.statusOut
      if !jtruthy (jgetD statusRes "logged_in".toList .null) then
        (.authRequired, [ScriptCall.status])
      else
        let scrapeTried := !args.skipTrending
        let trace1 :=
          if scrapeTried then [ScriptCall.status, ScriptCall.trending category args.keyword]
          else [ScriptCall.status]
        let scrapeRes := parseStdout env.trendingOut
        let scrapeOk := scrapeTried
          && jgetD scrapeRes "status".toList .null == Json.str "success".toList
          && jtruthy (jgetD scrapeRes "output_file".toList .null)
        let outputFileOk : Bool := !scrapeOk ||
          (match jgetD scrapeRes "output_file".toList .null with
           | .str _ => true | _ => false)
        if !outputFileOk then (.crash, trace1)
        else
          let selectSource : Option Json :=
            if scrapeOk then env.scrapedData else env.latestData
          let published :=
            if cfg.skipPublished then getPublishedTopics env.publishedFiles else []
          let topicE : Except Unit (Option Json) :=
            match selectSource with
            | some d => selectTopicFromTrending d published
            | none => .ok none
          match topicE with
          | .error _ => (.crash, trace1)
          | .ok t? =>
            let fallbackTopic : Json :=
              .str (if category == "综合".toList then "生活分享".toList else category)
            let topicJ : Json :=
              match t? with
              | some t => if jtruthy t then t else fallbackTopic
              | none => fallbackTopic
            match topicJ with
            | .str topicStr =>
              let trace2 := trace1 ++
                [ScriptCall.generate topicStr cfg.style cfg.imageCount
                  selectSource.isSome]
              let genRes := parseStdout env.genOut
              if !(jgetD genRes "status".toList .null == Json.str "success".toList) then
                (.genFailed, trace2)
              else
                let package := jgetD genRes "package".toList (.obj [])
                if mode == "preview".toList then
                  (.previewReady (jgetD package "title".toList (.str []))
                    (jgetD package "content".toList (.str []))
                    (jgetD package "topics".toList (.arr []))
                    (jgetD package "images".toList (.arr []))
                    (jgetD genRes "output_dir".toList (.str [])), trace2)
                else
                  let images := jgetD package "images".toList (.arr [])
                  if !jtruthy images then
                    (.noImages (jgetD package "title".toList (.str []))
                      (jgetD package "content".toList (.str []))
                      (jgetD package "topics".toList (.arr [])), trace2)
                  else pipePublish env package images todayCount trace2
            | _ => (.crash, trace1)

/-- The content package assembled by xhs_generate_content.py `main`
(title, body, topics, image prompts, resolved image paths). -/
structure GenPackage where
  title : List Char
  content : List Char
  topics : List (List Char)
  imagePrompts : List (List Char)
  images : List (List Char)

/-- The final result record printed by xhs_generate_content.py on success
(lines 500 to 510): note that the full package is written only to
package.json on disk — the printed record carries `title`,
`content_preview`, `topics`, `image_count`, `output_dir`, `package_file`
and no `package` key. -/
def genFinalResult (pkg : GenPackage) (outputDir : List Char) :
    List (List Char × Json) :=
  [("status".toList, .str "success".toList),
   ("message".toList, .str ("内容生成完成！标题: ".toList ++ pkg.title)),
   ("title".toList, .str pkg.title),
   ("content_preview".toList, .str (pkg.content.take 200)),
   ("topics".toList, .arr (pkg.topics.map .str)),
   ("image_count".toList, .num pkg.images.length),
   ("output_dir".toList, .str outputDir),
   ("package_file".toList, .str (outputDir ++ "/package.json".toList))]

/-- Standard output of a successful xhs_generate_content.py run: progress
lines, then the final result record, then one MEDIA line per saved image. -/
def genMainStdout (progress : List StdoutLine) (pkg : GenPackage)
    (outputDir : List Char) : List StdoutLine :=
  progress ++ [.jsonLine (genFinalResult pkg outputDir)]
    ++ pkg.images.map .mediaLine

/-- C5: on a pipeline run (no config-management flag), when today's post
count already meets or exceeds the configured daily ceiling, the
orchestrator terminates in the quota outcome before the login check, the
trending scrape, generation and publish — the external-call trace is
empty. -/
theorem C5_quota_gate (args : PipeArgs) (cfg : PipeConfig) (env : PipeEnv)
    (hset : args.setMode = []) (hcfg : args.configFlag = false)
    (hquota : cfg.maxDaily ≤ countTodayPosts env.todayLines) :
    pipelineRun args cfg env =
      (.limitReached (countTodayPosts env.todayLines), []) := by
  unfold pipelineRun
  rw [hset, hcfg]
  simp only [List.isEmpty_nil, Bool.not_true, Bool.false_eq_true, if_false]
  rw [if_pos hquota]

/-- Arguments of the C5 witness run. -/
def wArgs : PipeArgs :=
  { mode := [], category := [], keyword := [], skipTrending := false,
    configFlag := false, setMode := [] }

/-- Configuration of the C5 witness run: ceiling one. -/
def wCfg : PipeConfig :=
  { mode := "auto".toList, category := "tech".toList, style := [],
    imageCount := 1, skipPublished := true, maxDaily := 1 }

/-- Environment of the C5 witness run: one post already logged today. -/
def wEnv : PipeEnv :=
  { todayLines := ["x".toList], publishedFiles := [], statusOut := [],
    trendingOut := [], scrapedData := none, latestData := none,
    genOut := [], pubOut := [] }

/-- Witness for C5: a ceiling of one with one logged post today yields the
quota outcome and an empty call trace. -/
theorem C5_quota_gate_witness :
    pipelineRun wArgs wCfg wEnv = (.limitReached 1, []) := by
  have h := C5_quota_gate wArgs wCfg wEnv rfl rfl (by decide)
  simpa using h

/-- A binding list in which every binding of key `k` carries value `v`. -/
def keyFixed (kvs : List (List Char × Json)) (k : List Char) (v : Json) : Prop :=
  ∀ kv ∈ kvs, (kv.1 == k) = true → kv = (k, v)

/-- Unfolding lemma for `jlookup` on a cons cell. -/
theorem jlookup_cons (kv : List Char × Json) (rest : List (List Char × Json))
    (k : List Char) :
    jlookup (kv :: rest) k =
      match jlookup rest k with
      | some v => some v
      | none => if kv.1 == k then some kv.2 else none := rfl

theorem jlookup_none_of_not_anyKey (kvs : List (List Char × Json))
    (k : List Char) (h : anyKey kvs k = false) : jlookup kvs k = none := by
  induction kvs with
  | nil => rfl
  | cons kv rest ih =>
    simp only [anyKey, List.any_cons, Bool.or_eq_false_iff] at h
    rw [jlookup_cons, ih h.2]
    simp [h.1]

theorem anyKey_of_jlookup_some (kvs : List (List Char × Json))
    (k : List Char) (v : Json) (h : jlookup kvs k = some v) :
    anyKey kvs k = true := by
  by_cases ha : anyKey kvs k = true
  · exact ha
  · rw [jlookup_none_of_not_anyKey kvs k (by simpa using ha)] at h
    cases h

theorem map_repKV_id_of_not_anyKey (kvs : List (List Char × Json))
    (k : List Char) (v : Json) (h : anyKey kvs k = false) :
    kvs.map (repKV k v) = kvs := by
  induction kvs with
  | nil => rfl
  | cons kv rest ih =>
    simp only [anyKey, List.any_cons, Bool.or_eq_false_iff] at h
    simp only [List.map_cons, ih h.2]
    unfold repKV
    rw [h.1]
    simp

theorem jlookup_map_repKV_self (kvs : List (List Char × Json))
    (k : List Char) (v : Json) (h : anyKey kvs k = true) :
    jlookup (kvs.map (repKV k v)) k = some v := by
  induction kvs with
  | nil => simp [anyKey] at h
  | cons kv rest ih =>
    by_cases hr : anyKey rest k = true
    · simp only [List.map_cons, jlookup_cons, ih hr]
    · have hr' : anyKey rest k = false := by simpa using hr
      have hh : (kv.1 == k) = true := by
        simp only [anyKey, List.any_cons, Bool.or_eq_true] at h
        rcases h with h1 | h2
        · exact h1
        · unfold anyKey at hr'
          rw [hr'] at h2
          cases h2
      have hrep : repKV k v kv = (k, v) := by unfold repKV; rw [hh]; simp
      simp only [List.map_cons, jlookup_cons,
        map_repKV_id_of_not_anyKey rest k v hr',
        jlookup_none_of_not_anyKey rest k hr', hrep]
      simp

theorem jlookup_map_repKV_ne (kvs : List (List Char × Json))
    (k k' : List Char) (v : Json) (hne : k' ≠ k) :
    jlookup (kvs.map (repKV k v)) k' = jlookup kvs k' := by
  induction kvs with
  | nil => rfl
  | cons kv rest ih =>
    simp only [List.map_cons, jlookup_cons, ih]
    by_cases hh : (kv.1 == k) = true
    · have hkey : kv.1 = k := by simpa using hh
      have hrep : repKV k v kv = (k, v) := by unfold repKV; rw [hh]; simp
      have h1 : (k == k') = false := by
        simp only [beq_eq_false_iff_ne, ne_eq]
        exact fun e => hne e.symm
      have h2 : (kv.1 == k') = false := by
        rw [hkey]
        simp only [beq_eq_false_iff_ne, ne_eq]
        exact fun e => hne e.symm
      rw [hrep]
      cases jlookup rest k' <;> simp [h1, h2]
    · have hrep : repKV k v kv = kv := by unfold repKV; simp [hh]
      rw [hrep]

theorem jlookup_append (a b : List (List Char × Json)) (k : List Char) :
    jlookup (a ++ b) k =
      match jlookup b k with
      | some v => some v
      | none => jlookup a k := by
  induction a with
  | nil => cases h : jlookup b k <;> simp [jlookup, h]
  | cons kv rest ih =>
    simp only [List.cons_append, jlookup_cons, ih]
    cases h : jlookup b k <;> cases h2 : jlookup rest k <;> simp

theorem jlookup_setKey_self (kvs : List (List Char × Json))
    (k : List Char) (v : Json) : jlookup (setKey kvs k v) k = some v := by
  unfold setKey
  by_cases h : anyKey kvs k = true
  · rw [if_pos h]
    exact jlookup_map_repKV_self kvs k v h
  · rw [if_neg (by simpa using h)]
    rw [jlookup_append]
    simp [jlookup]

theorem jlookup_setKey_ne (kvs : List (List Char × Json))
    (k k' : List Char) (v : Json) (hne : k' ≠ k) :
    jlookup (setKey kvs k v) k' = jlookup kvs k' := by
  unfold setKey
  by_cases h : anyKey kvs k = true
  · rw [if_pos h]
    exact jlookup_map_repKV_ne kvs k k' v hne
  · rw [if_neg (by simpa using h)]
    rw [jlookup_append]
    have hk : (k == k') = false := by
      simp only [beq_eq_false_iff_ne, ne_eq]
      exact fun e => hne e.symm
    simp [jlookup, hk]

theorem anyKey_setKey_self (kvs : List (List Char × Json))
    (k : List Char) (v : Json) : anyKey (setKey kvs k v) k = true := by
  unfold setKey
  by_cases h : anyKey kvs k = true
  · rw [if_pos h]
    simp only [anyKey, List.any_eq_true] at h ⊢
    obtain ⟨kv, hm, hk⟩ := h
    refine ⟨(k, v), List.mem_map.mpr ⟨kv, hm, ?_⟩, by simp⟩
    unfold repKV
    rw [hk]
    simp
  · rw [if_neg (by simpa using h)]
    simp only [anyKey, List.any_eq_true]
    exact ⟨(k, v), List.mem_append.mpr (Or.inr (by simp)), by simp⟩

theorem keyFixed_setKey_self (kvs : List (List Char × Json))
    (k : List Char) (v : Json) : keyFixed (setKey kvs k v) k v := by
  unfold setKey
  by_cases h : anyKey kvs k = true
  · rw [if_pos h]
    intro kv hm hk
    obtain ⟨kv0, _, he⟩ := List.mem_map.mp hm
    by_cases h0 : (kv0.1 == k) = true
    · rw [← he]
      unfold repKV
      rw [h0]
      simp
    · have hid : repKV k v kv0 = kv0 := by unfold repKV; simp [h0]
      rw [hid] at he
      exfalso
      rw [← he] at hk
      exact absurd hk (by simp [h0])
  · rw [if_neg (by simpa using h)]
    intro kv hm hk
    rcases List.mem_append.mp hm with hin | hin
    · exfalso
      have hall : anyKey kvs k = false := by simpa using h
      simp only [anyKey, List.any_eq_false] at hall
      exact absurd hk (by simpa using hall kv hin)
    · simpa using hin

theorem keyFixed_setKey_ne (kvs : List (List Char × Json))
    (k k' : List Char) (v w : Json) (hne : k' ≠ k)
    (hf : keyFixed kvs k v) : keyFixed (setKey kvs k' w) k v := by
  unfold setKey
  by_cases h : anyKey kvs k' = true
  · rw [if_pos h]
    intro kv hm hk
    obtain ⟨kv0, hm0, he⟩ := List.mem_map.mp hm
    by_cases h0 : (kv0.1 == k') = true
    · have hw : repKV k' w kv0 = (k', w) := by unfold repKV; rw [h0]; simp
      rw [hw] at he
      rw [← he] at hk
      simp at hk
      exact absurd hk hne
    · have hid : repKV k' w kv0 = kv0 := by unfold repKV; simp [h0]
      rw [hid] at he
      exact he ▸ hf kv0 hm0 (he ▸ hk)
  · rw [if_neg (by simpa using h)]
    intro kv hm hk
    rcases List.mem_append.mp hm with hin | hin
    · exact hf kv hin hk
    · simp at hin
      rw [hin] at hk
      simp at hk
      exact absurd hk hne

theorem anyKey_setKey_ne (kvs : List (List Char × Json))
    (k k' : List Char) (w : Json) (hne : k ≠ k')
    (h : anyKey kvs k = true) : anyKey (setKey kvs k' w) k = true := by
  unfold setKey
  by_cases ha : anyKey kvs k' = true
  · rw [if_pos ha]
    simp only [anyKey, List.any_eq_true] at h ⊢
    obtain ⟨kv, hm, hk⟩ := h
    by_cases h0 : (kv.1 == k') = true
    · have e1 : kv.1 = k' := by simpa using h0
      have e2 : kv.1 = k := by simpa using hk
      exact absurd (e2 ▸ e1) hne
    · refine ⟨kv, List.mem_map.mpr ⟨kv, hm, ?_⟩, hk⟩
      unfold repKV
      simp [h0]
  · rw [if_neg (by simpa using ha)]
    simp only [anyKey, List.any_eq_true] at h ⊢
    obtain ⟨kv, hm, hk⟩ := h
    exact ⟨kv, List.mem_append.mpr (Or.inl hm), hk⟩

theorem map_repKV_id_of_keyFixed (kvs : List (List Char × Json))
    (k : List Char) (v : Json) (hf : keyFixed kvs k v) :
    kvs.map (repKV k v) = kvs := by
  induction kvs with
  | nil => rfl
  | cons kv rest ih =>
    simp only [List.map_cons]
    have hrest := ih (fun kv' hm hk => hf kv' (by simp [hm]) hk)
    rw [hrest]
    by_cases h0 : (kv.1 == k) = true
    · have := hf kv (by simp) h0
      unfold repKV
      rw [h0]
      simp [this]
    · unfold repKV
      simp [h0]

theorem setKey_id_of_keyFixed (kvs : List (List Char × Json))
    (k : List Char) (v : Json) (hf : keyFixed kvs k v)
    (h : anyKey kvs k = true) : setKey kvs k v = kvs := by
  unfold setKey
  rw [if_pos h]
  exact map_repKV_id_of_keyFixed kvs k v hf

theorem setKey_setKey (kvs : List (List Char × Json))
    (k : List Char) (v : Json) :
    setKey (setKey kvs k v) k v = setKey kvs k v :=
  setKey_id_of_keyFixed _ k v (keyFixed_setKey_self kvs k v)
    (anyKey_setKey_self kvs k v)

theorem anyKey_false_of_jlookup_none (kvs : List (List Char × Json))
    (k : List Char) (h : jlookup kvs k = none) : anyKey kvs k = false := by
  induction kvs with
  | nil => rfl
  | cons kv rest ih =>
    rw [jlookup_cons] at h
    cases hlr : jlookup rest k with
    | some w => rw [hlr] at h; cases h
    | none =>
      rw [hlr] at h
      simp only [anyKey, List.any_cons, Bool.or_eq_false_iff]
      constructor
      · by_contra hc
        simp only [Bool.not_eq_false] at hc
        rw [hc] at h
        cases h
      · exact ih hlr

theorem keyFixed_of_nodup_lookup (kvs : List (List Char × Json))
    (k : List Char) (v : Json) (hnd : (kvs.map Prod.fst).Nodup)
    (h : jlookup kvs k = some v) : keyFixed kvs k v := by
  induction kvs with
  | nil => intro kv hm; cases hm
  | cons kv rest ih =>
    rw [jlookup_cons] at h
    simp only [List.map_cons, List.nodup_cons] at hnd
    intro kv' hm hk
    cases hlr : jlookup rest k with
    | some w =>
      rw [hlr] at h
      have hw : w = v := by cases h; rfl
      rcases List.mem_cons.mp hm with he | hin
      · exfalso
        have hkk : kv.1 = k := by
          rw [he] at hk
          simpa using hk
        have hany := anyKey_of_jlookup_some rest k w hlr
        simp only [anyKey, List.any_eq_true] at hany
        obtain ⟨kv2, hm2, hk2⟩ := hany
        have : kv.1 ∈ rest.map Prod.fst := by
          rw [hkk]
          exact List.mem_map.mpr ⟨kv2, hm2, by simpa using hk2⟩
        exact hnd.1 this
      · exact ih hnd.2 (hw ▸ hlr) kv' hin hk
    | none =>
      rw [hlr] at h
      rcases List.mem_cons.mp hm with he | hin
      · subst he
        rw [if_pos hk] at h
        have h2 : kv'.2 = v := by cases h; rfl
        have hkk : kv'.1 = k := by simpa using hk
        cases kv' with
        | mk a b =>
          simp only at h2 hkk
          rw [hkk, h2]
      · exfalso
        have hany : anyKey rest k = true := by
          simp only [anyKey, List.any_eq_true]
          exact ⟨kv', hin, hk⟩
        rw [anyKey_false_of_jlookup_none rest k hlr] at hany
        cases hany

theorem setKey_id_of_nodup_lookup (kvs : List (List Char × Json))
    (k : List Char) (v : Json) (hnd : (kvs.map Prod.fst).Nodup)
    (h : jlookup kvs k = some v) : setKey kvs k v = kvs :=
  setKey_id_of_keyFixed kvs k v (keyFixed_of_nodup_lookup kvs k v hnd h)
    (anyKey_of_jlookup_some kvs k v h)

theorem pySliceTo_idem (v w : Json) (l : Nat) (h : pySliceTo v l = some w) :
    pySliceTo w l = some w := by
  cases v with
  | str s =>
    simp only [pySliceTo] at h
    cases h
    simp [pySliceTo, List.take_take]
  | arr xs =>
    simp only [pySliceTo] at h
    cases h
    simp [pySliceTo, List.take_take]
  | null => cases h
  | bool b => cases h
  | num n => cases h
  | obj kvs => cases h

theorem pyLen_slice (v w : Json) (l : Nat) (h : pySliceTo v l = some w) :
    ∃ m, pyLen w = some m ∧ m ≤ l := by
  cases v with
  | str s =>
    simp only [pySliceTo] at h
    cases h
    exact ⟨_, rfl, by simp [List.length_take]⟩
  | arr xs =>
    simp only [pySliceTo] at h
    cases h
    exact ⟨_, rfl, by simp [List.length_take]⟩
  | null => cases h
  | bool b => cases h
  | num n => cases h
  | obj kvs => cases h

theorem truncField_some_bound (kvs kvs' : List (List Char × Json))
    (k : List Char) (limit : Nat) (h : truncField kvs k limit = some kvs') :
    ∃ n, pyLen ((jlookup kvs' k).getD (.str [])) = some n ∧ n ≤ limit := by
  unfold truncField at h
  split at h
  · cases h
  · rename_i n hL
    split at h
    · rename_i hn
      split at h
      · rename_i tv hlk
        cases hs : pySliceTo tv limit with
        | none => rw [hs] at h; cases h
        | some tv' =>
          rw [hs] at h
          simp only [Option.map] at h
          have hkvs' : kvs' = setKey kvs k tv' := by cases h; rfl
          rw [hkvs', jlookup_setKey_self]
          obtain ⟨m, hm, hml⟩ := pyLen_slice tv tv' limit hs
          exact ⟨m, by simpa using hm, hml⟩
      · cases h
    · rename_i hn
      have he : kvs' = kvs := by cases h; rfl
      subst he
      exact ⟨n, hL, by omega⟩

theorem truncField_some_other (kvs kvs' : List (List Char × Json))
    (k k' : List Char) (limit : Nat) (h : truncField kvs k limit = some kvs')
    (hne : k' ≠ k) : jlookup kvs' k' = jlookup kvs k' := by
  unfold truncField at h
  split at h
  · cases h
  · rename_i n hL
    split at h
    · rename_i hn
      split at h
      · rename_i tv hlk
        cases hs : pySliceTo tv limit with
        | none => rw [hs] at h; cases h
        | some tv' =>
          rw [hs] at h
          simp only [Option.map] at h
          have hkvs' : kvs' = setKey kvs k tv' := by cases h; rfl
          rw [hkvs']
          exact jlookup_setKey_ne kvs k k' tv' hne
      · cases h
    · rename_i hn
      have he : kvs' = kvs := by cases h; rfl
      rw [he]

theorem truncField_noop (kvs : List (List Char × Json)) (k : List Char)
    (limit n : Nat) (hL : pyLen ((jlookup kvs k).getD (.str [])) = some n)
    (hn : n ≤ limit) : truncField kvs k limit = some kvs := by
  unfold truncField
  rw [hL]
  simp only [gt_iff_lt]
  rw [if_neg (by omega)]

/-- Compliance of a decoded result with the validation bounds: sized title
within 50, sized body within 1000, topic and prompt lists present and
already within their limits. -/
def compliantResult (r : Json) (ic : Nat) : Bool :=
  match r with
  | .obj kvs =>
    (match pyLen ((jlookup kvs "title".toList).getD (.str [])) with
     | some n => n ≤ 50
     | none => false)
    && (match pyLen ((jlookup kvs "content".toList).getD (.str [])) with
     | some n => n ≤ 1000
     | none => false)
    && (match jlookup kvs "topics".toList with
     | some (.str s) => s.length ≤ 10
     | some (.arr xs) => xs.length ≤ 10
     | _ => false)
    && (match jlookup kvs "image_prompts".toList with
     | some (.str s) => s.length ≤ ic
     | some (.arr xs) => xs.length ≤ ic
     | _ => false)
  | _ => false

/-- Distinct keys at the top level of a decoded object (every real Python
dict satisfies this; the association-list embedding must assume it). -/
def objKeysNodup : Json → Bool
  | .obj kvs => decide ((kvs.map Prod.fst).Nodup)
  | _ => false

/-- Lookup on a decoded object, `none` on any other value. -/
def jgetOpt : Json → List Char → Option Json
  | .obj kvs, k => jlookup kvs k
  | _, _ => none

/-- C8: the post-decode validation truncates rather than rejects — on any
successfully validated result the title is capped at 50 characters, the
body at 1000, the topic list at 10 entries and the prompt list at the
requested image count; the validation is idempotent; and on an
already-compliant result (with distinct keys, as every real dict has) it
is the identity. -/
theorem C8_validation_truncation (r : Json) (ic : Nat) (r' : Json)
    (h : validateResult r ic = some r') :
    (∃ n, pyLen ((jgetOpt r' "title".toList).getD (.str [])) = some n ∧ n ≤ 50) ∧
    (∃ n, pyLen ((jgetOpt r' "content".toList).getD (.str [])) = some n ∧ n ≤ 1000) ∧
    (∃ t m, jgetOpt r' "topics".toList = some t ∧ pyLen t = some m ∧ m ≤ 10) ∧
    (∃ t m, jgetOpt r' "image_prompts".toList = some t ∧ pyLen t = some m ∧ m ≤ ic) ∧
    validateResult r' ic = some r' ∧
    (compliantResult r ic = true → objKeysNodup r = true → r' = r) := by
  have hne1 : ("content".toList : List Char) ≠ "title".toList := by decide
  have hne2 : ("topics".toList : List Char) ≠ "title".toList := by decide
  have hne3 : ("image_prompts".toList : List Char) ≠ "title".toList := by decide
  have hne4 : ("topics".toList : List Char) ≠ "content".toList := by decide
  have hne5 : ("image_prompts".toList : List Char) ≠ "content".toList := by decide
  have hne6 : ("image_prompts".toList : List Char) ≠ "topics".toList := by decide
  have h0 := h
  cases r with
  | null => cases h
  | bool b => cases h
  | num n => cases h
  | str s => cases h
  | arr xs => cases h
  | obj kvs0 =>
    simp only [validateResult] at h
    cases h1 : truncField kvs0 "title".toList 50 with
    | none => rw [h1] at h; cases h
    | some kvs1 =>
    rw [h1] at h
    simp only [Option.some_bind] at h
    cases h2 : truncField kvs1 "content".toList 1000 with
    | none => rw [h2] at h; cases h
    | some kvs2 =>
    rw [h2] at h
    simp only [Option.some_bind] at h
    cases h3 : sliceField kvs2 "topics".toList 10 with
    | none => rw [h3] at h; cases h
    | some kvs3 =>
    rw [h3] at h
    simp only [Option.some_bind] at h
    cases h4 : sliceField kvs3 "image_prompts".toList ic with
    | none => rw [h4] at h; cases h
    | some kvs4 =>
    rw [h4] at h
    simp only [Option.map] at h
    have hr' : r' = .obj kvs4 := by cases h; rfl
    subst hr'
    unfold sliceField at h3
    cases hs3 : pySliceTo ((jlookup kvs2 "topics".toList).getD (.arr [])) 10 with
    | none => rw [hs3] at h3; cases h3
    | some t3 =>
    rw [hs3] at h3
    simp only [Option.map] at h3
    have hk3 : kvs3 = setKey kvs2 "topics".toList t3 := by cases h3; rfl
    unfold sliceField at h4
    cases hs4 : pySliceTo ((jlookup kvs3 "image_prompts".toList).getD (.arr [])) ic with
    | none => rw [hs4] at h4; cases h4
    | some t4 =>
    rw [hs4] at h4
    simp only [Option.map] at h4
    have hk4 : kvs4 = setKey kvs3 "image_prompts".toList t4 := by cases h4; rfl
    -- lookups in the final object
    have lt4 : jlookup kvs4 "title".toList = jlookup kvs1 "title".toList := by
      rw [hk4, jlookup_setKey_ne _ _ _ _ hne3.symm, hk3,
        jlookup_setKey_ne _ _ _ _ hne2.symm]
      exact truncField_some_other kvs1 kvs2 _ _ 1000 h2 hne1.symm
    have lc4 : jlookup kvs4 "content".toList = jlookup kvs2 "content".toList := by
      rw [hk4, jlookup_setKey_ne _ _ _ _ hne5.symm, hk3,
        jlookup_setKey_ne _ _ _ _ hne4.symm]
    have ltop4 : jlookup kvs4 "topics".toList = some t3 := by
      rw [hk4, jlookup_setKey_ne _ _ _ _ hne6.symm, hk3, jlookup_setKey_self]
    have lpr4 : jlookup kvs4 "image_prompts".toList = some t4 := by
      rw [hk4, jlookup_setKey_self]
    obtain ⟨nt, hnt, hnt50⟩ := truncField_some_bound kvs0 kvs1 _ 50 h1
    obtain ⟨nc, hnc, hnc1000⟩ := truncField_some_bound kvs1 kvs2 _ 1000 h2
    have htb4 : pyLen ((jlookup kvs4 "title".toList).getD (.str [])) = some nt := by
      rw [lt4]
      exact hnt
    have hcb4 : pyLen ((jlookup kvs4 "content".toList).getD (.str [])) = some nc := by
      rw [lc4]; exact hnc
    obtain ⟨mt, hmt, hmt10⟩ := pyLen_slice _ _ _ hs3
    obtain ⟨mp, hmp, hmpic⟩ := pyLen_slice _ _ _ hs4
    refine ⟨⟨nt, htb4, hnt50⟩, ⟨nc, hcb4, hnc1000⟩,
      ⟨t3, mt, by simpa [jgetOpt] using ltop4, hmt, hmt10⟩,
      ⟨t4, mp, by simpa [jgetOpt] using lpr4, hmp, hmpic⟩, ?_, ?_⟩
    · -- idempotence
      have tf1 : truncField kvs4 "title".toList 50 = some kvs4 :=
        truncField_noop _ _ _ nt htb4 hnt50
      have tf2 : truncField kvs4 "content".toList 1000 = some kvs4 :=
        truncField_noop _ _ _ nc hcb4 hnc1000
      have sf3 : sliceField kvs4 "topics".toList 10 = some kvs4 := by
        unfold sliceField
        rw [ltop4]
        simp only [Option.getD_some]
        rw [pySliceTo_idem _ _ _ hs3]
        simp only [Option.map]
        congr 1
        apply setKey_id_of_keyFixed
        · rw [hk4]
          apply keyFixed_setKey_ne _ _ _ _ _ hne6
          rw [hk3]
          exact keyFixed_setKey_self kvs2 _ t3
        · rw [hk4]
          apply anyKey_setKey_ne _ _ _ _ hne6.symm
          rw [hk3]
          exact anyKey_setKey_self kvs2 _ t3
      have sf4 : sliceField kvs4 "image_prompts".toList ic = some kvs4 := by
        unfold sliceField
        rw [lpr4]
        simp only [Option.getD_some]
        rw [pySliceTo_idem _ _ _ hs4]
        simp only [Option.map]
        congr 1
        apply setKey_id_of_keyFixed
        · rw [hk4]
          exact keyFixed_setKey_self kvs3 _ t4
        · rw [hk4]
          exact anyKey_setKey_self kvs3 _ t4
      simp only [validateResult]
      rw [tf1]
      simp only [Option.some_bind]
      rw [tf2]
      simp only [Option.some_bind]
      rw [sf3]
      simp only [Option.some_bind]
      rw [sf4]
      simp only [Option.map]
    · -- identity on compliant input
      intro hc hnd
      unfold compliantResult at hc
      simp only [Bool.and_eq_true] at hc
      obtain ⟨⟨⟨hA, hB⟩, hC⟩, hD⟩ := hc
      have hndp : (kvs0.map Prod.fst).Nodup := by
        unfold objKeysNodup at hnd
        exact of_decide_eq_true hnd
      have tf1' : truncField kvs0 "title".toList 50 = some kvs0 := by
        split at hA
        · rename_i n hL
          exact truncField_noop _ _ _ n hL (by exact of_decide_eq_true hA)
        · cases hA
      have tf2' : truncField kvs0 "content".toList 1000 = some kvs0 := by
        split at hB
        · rename_i n hL
          exact truncField_noop _ _ _ n hL (by exact of_decide_eq_true hB)
        · cases hB
      have sf3' : sliceField kvs0 "topics".toList 10 = some kvs0 := by
        unfold sliceField
        split at hC
        · rename_i s hlk
          rw [hlk]
          simp only [Option.getD_some, pySliceTo]
          rw [List.take_of_length_le (of_decide_eq_true hC)]
          simp only [Option.map]
          congr 1
          exact setKey_id_of_nodup_lookup kvs0 _ _ hndp hlk
        · rename_i xs hlk
          rw [hlk]
          simp only [Option.getD_some, pySliceTo]
          rw [List.take_of_length_le (of_decide_eq_true hC)]
          simp only [Option.map]
          congr 1
          exact setKey_id_of_nodup_lookup kvs0 _ _ hndp hlk
        · cases hC
      have sf4' : sliceField kvs0 "image_prompts".toList ic = some kvs0 := by
        unfold sliceField
        split at hD
        · rename_i s hlk
          rw [hlk]
          simp only [Option.getD_some, pySliceTo]
          rw [List.take_of_length_le (of_decide_eq_true hD)]
          simp only [Option.map]
          congr 1
          exact setKey_id_of_nodup_lookup kvs0 _ _ hndp hlk
        · rename_i xs hlk
          rw [hlk]
          simp only [Option.getD_some, pySliceTo]
          rw [List.take_of_length_le (of_decide_eq_true hD)]
          simp only [Option.map]
          congr 1
          exact setKey_id_of_nodup_lookup kvs0 _ _ hndp hlk
        · cases hD
      have hval : validateResult (.obj kvs0) ic = some (.obj kvs0) := by
        simp only [validateResult]
        rw [tf1']
        simp only [Option.some_bind]
        rw [tf2']
        simp only [Option.some_bind]
        rw [sf3']
        simp only [Option.some_bind]
        rw [sf4']
        simp only [Option.map]
      rw [hval] at h0
      cases h0
      rfl

/-- Compliant concrete result record used by the C8 witness. -/
def c8r : Json :=
  .obj [("title".toList, .str "ab".toList),
        ("content".toList, .str "cd".toList),
        ("topics".toList, .arr [.str "t".toList]),
        ("image_prompts".toList, .arr [.str "p".toList])]

/-- Witness for C8 at a compliant record with image count two. -/
theorem C8_validation_truncation_witness :
    (∃ n, pyLen ((jgetOpt c8r "title".toList).getD (.str [])) = some n ∧ n ≤ 50) ∧
    (∃ n, pyLen ((jgetOpt c8r "content".toList).getD (.str [])) = some n ∧ n ≤ 1000) ∧
    (∃ t m, jgetOpt c8r "topics".toList = some t ∧ pyLen t = some m ∧ m ≤ 10) ∧
    (∃ t m, jgetOpt c8r "image_prompts".toList = some t ∧ pyLen t = some m ∧ m ≤ 2) ∧
    validateResult c8r 2 = some c8r ∧
    (compliantResult c8r 2 = true → objKeysNodup c8r = true → c8r = c8r) :=
  C8_validation_truncation c8r 2 c8r (by rfl)

/-- C7 amended: the publish script appends exactly one log entry whenever
the publish call returns a result object — successful or rejected alike —
recording the request data and the result's success flag; only a raised
exception (or a validation stop) skips logging. On rejection the exit is
the failure outcome, but the entry is still written. -/
theorem C7_publish_logs_on_return (args : PubArgs)
    (fileExists : List Char → Bool) (success : Bool)
    (url : Option (List Char)) (message ts : List Char)
    (ht : args.title.length ≤ 50) (hc : args.content.length ≤ 1000)
    (hi : validImages (parseListArg args.images) fileExists = true)
    (htp : (parseListArg args.topics).length ≤ 10)
    (hd : args.dryRun = false) :
    publishMain args true fileExists (.returns success url message) ts =
      ((if success then .published url else .rejected message),
       [jdumpEntry { timestamp := ts, title := args.title,
                     contentLength := args.content.length,
                     imageCount := (parseListArg args.images).length,
                     topics := parseListArg args.topics,
                     success := success, url := url, message := message }]) := by
  unfold publishMain
  simp only [hd, hi, Bool.not_true, Bool.false_eq_true, if_false, gt_iff_lt]
  rw [if_neg (by omega), if_neg (by omega), if_neg (by omega)]
  cases success <;> simp

/-- Arguments of the C7 rejection run. -/
def c7args : PubArgs :=
  { title := "t".toList, content := "c".toList, images := "/a/x.png".toList,
    topics := [], dryRun := false }

/-- Counterexample to C7 as stated: on a publish rejection (the call
returns with the success flag false) the script still appends a log
entry, so the claim that no entry is written on rejection is false. -/
theorem C7_rejection_still_logs_cex :
    (publishMain c7args true (fun _ => true)
      (.returns false none "err".toList) "ts".toList).1 =
        .rejected "err".toList ∧
    (publishMain c7args true (fun _ => true)
      (.returns false none "err".toList) "ts".toList).2 ≠ [] := by
  constructor
  · rfl
  · decide

/-- Witness for the amended C7 at the concrete rejection run. -/
theorem C7_publish_logs_on_return_witness :
    publishMain c7args true (fun _ => true)
      (.returns false none "err".toList) "ts".toList =
      ((if false then PubOutcome.published none
        else .rejected "err".toList),
       [jdumpEntry { timestamp := "ts".toList, title := c7args.title,
                     contentLength := c7args.content.length,
                     imageCount := (parseListArg c7args.images).length,
                     topics := parseListArg c7args.topics,
                     success := false, url := none,
                     message := "err".toList }]) :=
  C7_publish_logs_on_return c7args (fun _ => true) false none
    "err".toList "ts".toList (by decide) (by decide) (by decide) (by decide)
    rfl

theorem scanKws_not_mem (published : List Json) (l : List Json) (w : Json)
    (h : scanKws published l = .ok (some w)) : jmem w published = false := by
  induction l with
  | nil => simp [scanKws] at h
  | cons kw rest ih =>
    unfold scanKws at h
    split at h
    · cases h
    · rename_i word hw
      split at h
      · split at h
        · exact ih h
        · rename_i hmem
          split at h
          · cases h
          · rename_i n hn
            split at h
            · cases h
              simpa using hmem
            · exact ih h
      · exact ih h

theorem scanTitles_trunc (published : List Json) (l : List Json) (v : Json)
    (h : scanTitles published l = .ok (some v)) :
    ∃ t, jmem t published = false ∧ pySliceTo t 20 = some v := by
  induction l with
  | nil => simp [scanTitles] at h
  | cons note rest ih =>
    unfold scanTitles at h
    split at h
    · rename_i kvs
      split at h
      · split at h
        · exact ih h
        · rename_i hmem
          split at h
          · rename_i t hs
            cases h
            exact ⟨_, by simpa using hmem, hs⟩
          · cases h
      · exact ih h
    · cases h

/-- C2 amended: the Topic Selector never returns a keyword that is in the
supplied published set, and never a note title whose full text is in the
set; but a returned topic may itself be in the set when it is the
20-character truncation of a longer unpublished title. Formally: a
returned topic is either not in the published set or is the 20-character
slice of some value not in the published set. -/
theorem C2_selector_amended (data : Json) (published : List Json) (v : Json)
    (h : selectTopicFromTrending data published = .ok (some v)) :
    jmem v published = false ∨
      ∃ t, jmem t published = false ∧ pySliceTo t 20 = some v := by
  unfold selectTopicFromTrending at h
  split at h
  · cases h
  · split at h
    · cases h
    · split at h
      · cases h
      · split at h
        · cases h
        · rename_i w hkws
          cases h
          exact Or.inl (scanKws_not_mem _ _ _ hkws)
        · split at h
          · cases h
          · split at h
            · cases h
            · split at h
              · cases h
              · rename_i t hts
                cases h
                exact Or.inr (scanTitles_trunc _ _ _ hts)
              · split at h
                · cases h
                · split at h
                  · cases h
                  · exact Or.inl (scanKws_not_mem _ _ _ h)

/-- A note title of 21 characters. -/
def c2title : List Char := "abcdefghijklmnopqrstu".toList

/-- A published set holding exactly the 20-character prefix of `c2title`. -/
def c2pub : List Json := [.str "abcdefghijklmnopqrst".toList]

/-- Trending data with one note and no keyword analysis. -/
def c2data : Json :=
  .obj [("notes".toList, .arr [.obj [("title".toList, .str c2title)]])]

/-- Counterexample to C2 as stated: the selector returns the 20-character
truncation of an unpublished 21-character title, and that truncation is a
member of the supplied published set. -/
theorem C2_truncated_title_in_published_cex :
    selectTopicFromTrending c2data c2pub =
      .ok (some (.str "abcdefghijklmnopqrst".toList)) ∧
    jmem (.str "abcdefghijklmnopqrst".toList) c2pub = true := by
  constructor
  · simp +decide [selectTopicFromTrending, c2data, c2pub, c2title, jgetEx,
      jlookup, jgetD, toIter, scanKws, scanTitles, kwWord, jtruthy, jmem,
      Json.beq, pySliceTo]
  · simp +decide [jmem, c2pub, Json.beq]

/-- Witness for the amended C2 at the concrete truncation run. -/
theorem C2_selector_amended_witness :
    jmem (.str "abcdefghijklmnopqrst".toList) c2pub = false ∨
      ∃ t, jmem t c2pub = false ∧
        pySliceTo t 20 = some (.str "abcdefghijklmnopqrst".toList) := by
  apply C2_selector_amended c2data c2pub
  simp +decide [selectTopicFromTrending, c2data, c2pub, c2title, jgetEx,
    jlookup, jgetD, toIter, scanKws, scanTitles, kwWord, jtruthy, jmem,
    Json.beq, pySliceTo]

/-- C9 amended: when every fallback is exhausted, the recovery parser's
error payload is the length of the preprocessed text — the input after
whitespace stripping and fence removal — not the length of the original
input; the payload is only that number, never the text itself. -/
theorem C9_error_carries_processed_length (raw : List Char) (n : Nat)
    (h : extractJsonL raw = .error n) : n = (preprocess raw).length := by
  simp only [extractJsonL] at h
  split at h
  · cases h
  · split at h
    · cases h
    · split at h
      · cases h
        rfl
      · split at h
        · cases h
          rfl
        · split at h
          · cases h
          · split at h
            · cases h
            · cases h
              rfl

/-- Counterexample to C9 as stated: on the input holding two leading
spaces and three letters, the recovery parser fails with payload 3, the
length of the stripped text, while the original input has length 5. -/
theorem C9_error_length_cex :
    extractJsonL "  abc".toList = .error 3 ∧
    ("  abc".toList).length = 5 ∧ (3 : Nat) ≠ 5 := by
  refine ⟨?_, by decide, by decide⟩
  simp [extractJsonL, preprocess, pyStrip, pyLstrip, pyRstrip, pyWs,
    fenceMark, jloadsL, jskip, jsonWs, parseVal, fixJson, rtc, rtcF, fixWalk,
    reWs, qtC, bsC, lbC, rbC, btC]

/-- Witness for the amended C9 at the concrete failing input. -/
theorem C9_error_carries_processed_length_witness :
    (3 : Nat) = (preprocess "  abc".toList).length := by
  apply C9_error_carries_processed_length "  abc".toList
  simp [extractJsonL, preprocess, pyStrip, pyLstrip, pyRstrip, pyWs,
    fenceMark, jloadsL, jskip, jsonWs, parseVal, fixJson, rtc, rtcF, fixWalk,
    reWs, qtC, bsC, lbC, rbC, btC]

theorem genLoop_eq (env : ImgEnv) (outputDir : List Char) :
    ∀ (ps : List (List Char)) (i : Nat),
    generateImagesLoop env outputDir i ps =
      (List.range ps.length).filterMap
        (fun j => if promptSaved env (i + j) then some (imgPath outputDir (i + j))
                  else none) := by
  intro ps
  induction ps with
  | nil => intro i; rfl
  | cons p rest ih =>
    intro i
    show (if promptSaved env i then [imgPath outputDir i] else [])
        ++ generateImagesLoop env outputDir (i + 1) rest = _
    rw [ih (i + 1), List.length_cons, List.range_succ_eq_map,
      List.filterMap_cons, List.filterMap_map]
    have hfn : ((fun j => if promptSaved env (i + j) then
        some (imgPath outputDir (i + j)) else none) ∘ Nat.succ) =
        (fun j => if promptSaved env (i + 1 + j) then
          some (imgPath outputDir (i + 1 + j)) else none) := by
      funext j
      simp only [Function.comp]
      rw [show i + Nat.succ j = i + 1 + j by omega]
    rw [hfn]
    cases hs : promptSaved env i with
    | true => simp [hs]
    | false => simp [hs]

/-- C6: with image-generation credentials configured, `generate_images`
returns normally rather than raising: its result holds exactly one saved
path per prompt whose (at most three) attempts produced an image, so a
per-prompt failure only omits that prompt's path, and the result is never
longer than the prompt list (possibly empty). -/
theorem C6_generate_images_batch (apiKey baseUrl model : List Char)
    (prompts : List (List Char)) (outputDir : List Char) (env : ImgEnv)
    (hk : apiKey ≠ []) (hb : baseUrl ≠ []) (hm : model ≠ []) :
    generateImages apiKey baseUrl model prompts outputDir env =
      .ok ((List.range prompts.length).filterMap
        (fun j => if promptSaved env j then some (imgPath outputDir j)
                  else none)) ∧
    ((List.range prompts.length).filterMap
        (fun j => if promptSaved env j then some (imgPath outputDir j)
                  else none)).length ≤ prompts.length := by
  constructor
  · unfold generateImages
    rw [if_neg (by simp [hk, hb, hm])]
    rw [genLoop_eq env outputDir prompts 0]
    simp only [Nat.zero_add]
  · calc ((List.range prompts.length).filterMap _).length
        ≤ (List.range prompts.length).length := List.length_filterMap_le _ _
      _ = prompts.length := List.length_range prompts.length

/-- Message of the successful first attempt in the C6 witness: an
OpenRouter-style images array holding a data URL. -/
def c6msg : Json :=
  .obj [("images".toList,
    .arr [.obj [("image_url".toList,
      .obj [("url".toList, .str "data:image/png;base64,YWJj".toList)])]])]

/-- Environment of the C6 witness: prompt 0 succeeds on its first attempt,
prompt 1 fails all three attempts with a non-200 status. -/
def c6env : ImgEnv :=
  { oracle := fun i a => if i = 0 && a = 0 then .ok c6msg else .httpBad,
    decodeOk := fun _ => true,
    findUrl := fun _ => none,
    fetch := fun _ => .httpBad }

/-- Witness for C6: a two-prompt batch with one failing prompt returns the
single successful path. -/
theorem C6_generate_images_batch_witness :
    generateImages "k".toList "u".toList "m".toList
      ["a".toList, "b".toList] "out".toList c6env =
      .ok ((List.range 2).filterMap
        (fun j => if promptSaved c6env j then some (imgPath "out".toList j)
                  else none)) :=
  (C6_generate_images_batch "k".toList "u".toList "m".toList
    ["a".toList, "b".toList] "out".toList c6env (by decide) (by decide)
    (by decide)).1

theorem findSome?_append_none {α β : Type} (f : α → Option β)
    (a b : List α) (h : ∀ x ∈ a, f x = none) :
    (a ++ b).findSome? f = b.findSome? f := by
  induction a with
  | nil => rfl
  | cons x rest ih =>
    rw [List.cons_append]
    rw [List.findSome?_cons]
    rw [h x (by simp)]
    exact ih (fun y hy => h y (by simp [hy]))

/-- The orchestrator's `run_script` parse applied to a successful
generation run picks the final result record: the MEDIA lines after it are
not JSON lines and the progress lines before it are shadowed. -/
theorem parseStdout_genMain (progress : List StdoutLine) (pkg : GenPackage)
    (dir : List Char) :
    parseStdout (genMainStdout progress pkg dir) =
      .obj (genFinalResult pkg dir) := by
  unfold parseStdout genMainStdout
  rw [List.reverse_append, List.reverse_append]
  rw [findSome?_append_none _ _ _ ?_]
  · rw [List.reverse_singleton, List.singleton_append, List.findSome?_cons]
  · intro x hx
    rw [List.mem_reverse, List.mem_map] at hx
    obtain ⟨p, _, he⟩ := hx
    rw [← he]

/-- C1 (code bug): in auto mode, for every generated package — even one
whose image list is non-empty — the orchestrator skips the publish call,
exits with the failure outcome, and its payload carries empty title, body
and topics rather than the package's: the generator's printed result has
no `package` key, so `gen_result.get("package", {})` is always empty. -/
theorem C1_auto_mode_payload_bug
    (args : PipeArgs) (cfg : PipeConfig) (env : PipeEnv)
    (pkg : GenPackage) (progress : List StdoutLine) (dir : List Char)
    (hset : args.setMode = []) (hcfg : args.configFlag = false)
    (hmode : args.mode = "auto".toList) (hskip : args.skipTrending = true)
    (hcat : args.category = "tech".toList)
    (hquota : countTodayPosts env.todayLines < cfg.maxDaily)
    (hlog : jtruthy (jgetD (parseStdout env.statusOut) "logged_in".toList .null)
      = true)
    (hlatest : env.latestData = none)
    (hgen : env.genOut = genMainStdout progress pkg dir) :
    pipelineRun args cfg env =
      (.noImages (.str []) (.str []) (.arr []),
       [ScriptCall.status,
        ScriptCall.generate "tech".toList cfg.style cfg.imageCount false]) ∧
    (pkg.title ≠ [] → Json.str [] ≠ Json.str pkg.title) := by
  refine ⟨?_, ?_⟩
  · unfold pipelineRun
    rw [hset, hcfg, hmode, hskip, hcat, hlatest, hgen, parseStdout_genMain]
    simp only [List.isEmpty_nil, Bool.not_true, Bool.false_eq_true, if_false]
    rw [if_neg (by omega)]
    rw [hlog]
    have hst : jgetD (Json.obj (genFinalResult pkg dir)) "status".toList
        Json.null = Json.str "success".toList := rfl
    have hpk : jgetD (Json.obj (genFinalResult pkg dir)) "package".toList
        (Json.obj []) = Json.obj [] := rfl
    rw [hst, hpk]
    have hsb : (Json.str "success".toList == Json.str "success".toList)
        = true := by
      show Json.beq _ _ = true
      simp [Json.beq]
    rw [hsb]
    have hod : jgetD (Json.obj (genFinalResult pkg dir)) "output_dir".toList
        (Json.str []) = Json.str dir := rfl
    rw [hod]
    simp only [Bool.false_and, Bool.not_false, Bool.true_or, Bool.or_true,
      Bool.not_true, Bool.false_eq_true, if_false, if_true, Bool.false_or]
    rfl
  · intro h hc
    apply h
    have : ([] : List Char) = pkg.title := by injection hc
    exact this.symm

/-- Package of the C1 witness: non-empty title, body, topics and a
non-empty image list. -/
def c1pkg : GenPackage :=
  { title := "AI tips".toList, content := "body".toList,
    topics := ["t1".toList], imagePrompts := ["p1".toList],
    images := ["/d/image_1.png".toList] }

/-- Arguments of the C1 witness run: auto mode, scrape skipped. -/
def c1args : PipeArgs :=
  { mode := "auto".toList, category := "tech".toList, keyword := [],
    skipTrending := true, configFlag := false, setMode := [] }

/-- Configuration of the C1 witness run. -/
def c1cfg : PipeConfig :=
  { mode := "preview".toList, category := "x".toList, style := "s".toList,
    imageCount := 1, skipPublished := false, maxDaily := 3 }

/-- Environment of the C1 witness run: logged in, no trending data, and a
generation run that produced `c1pkg`. -/
def c1env : PipeEnv :=
  { todayLines := [], publishedFiles := [],
    statusOut := [.jsonLine [("logged_in".toList, .bool true)]],
    trendingOut := [], scrapedData := none, latestData := none,
    genOut := genMainStdout [] c1pkg "/d".toList, pubOut := [] }

/-- Witness for C1: the concrete auto-mode run skips publish, fails, and
reports empty payload fields although the generated package is full. -/
theorem C1_auto_mode_payload_bug_witness :
    pipelineRun c1args c1cfg c1env =
      (.noImages (.str []) (.str []) (.arr []),
       [ScriptCall.status,
        ScriptCall.generate "tech".toList c1cfg.style c1cfg.imageCount
          false]) ∧
    (c1pkg.title ≠ [] → Json.str [] ≠ Json.str c1pkg.title) :=
  C1_auto_mode_payload_bug c1args c1cfg c1env c1pkg [] "/d".toList rfl rfl
    rfl rfl rfl (by decide) rfl rfl rfl

/-- Characters that pass unchanged through JSON string escaping and
lexing: not a quote, not a backslash, not a control character. -/
def plainChar (c : Char) : Bool :=
  c != qtC && c != bsC && decide (32 ≤ c.toNat)

/-- Plain characters that additionally cannot trigger the trailing-comma
regex of the repair pass. -/
def c4Char (c : Char) : Bool :=
  plainChar c && c != ','

/-- Ordinary visible content characters: plain, not whitespace, and not
one of the structural delimiters the repair lookahead recognises. -/
def hardChar (c : Char) : Bool :=
  plainChar c && !pyWs c && c != ',' && c != ':' && c != rbC && c != ']'

theorem parseStrBody_qt (r : List Char) :
    parseStrBody (qtC :: r) = some ([], r) := by
  conv_lhs => unfold parseStrBody
  rfl

theorem parseStrBody_bs_qt (r : List Char) :
    parseStrBody (bsC :: qtC :: r) =
      (parseStrBody r).map (fun p => (qtC :: p.1, p.2)) := by
  conv_lhs => unfold parseStrBody
  rw [if_neg (by decide : ¬bsC = qtC)]
  simp +decide

theorem parseStrBody_plain_cons (c : Char) (r : List Char)
    (h : plainChar c = true) :
    parseStrBody (c :: r) = (parseStrBody r).map (fun p => (c :: p.1, p.2)) := by
  simp only [plainChar, Bool.and_eq_true, bne_iff_ne, ne_eq,
    decide_eq_true_eq] at h
  conv_lhs => unfold parseStrBody
  rw [if_neg h.1.1, if_neg h.1.2, if_neg (by omega)]

theorem parseStrBody_plain_run (A tail : List Char)
    (hA : ∀ c ∈ A, plainChar c = true) :
    parseStrBody (A ++ tail) =
      (parseStrBody tail).map (fun p => (A ++ p.1, p.2)) := by
  induction A with
  | nil =>
    cases h : parseStrBody tail with
    | none => simp [h]
    | some p => simp [h]
  | cons c rest ih =>
    rw [List.cons_append, parseStrBody_plain_cons c _ (hA c (by simp))]
    rw [ih (fun c hm => hA c (by simp [hm]))]
    cases h : parseStrBody tail with
    | none => simp [h]
    | some p => simp [h]

theorem parseStrBody_plain_closed (A r : List Char)
    (hA : ∀ c ∈ A, plainChar c = true) :
    parseStrBody (A ++ qtC :: r) = some (A, r) := by
  rw [parseStrBody_plain_run A _ hA, parseStrBody_qt]
  simp

theorem parseStrBody_escaped_quote (A B r : List Char)
    (hA : ∀ c ∈ A, plainChar c = true) (hB : ∀ c ∈ B, plainChar c = true) :
    parseStrBody (A ++ bsC :: qtC :: (B ++ qtC :: r)) =
      some (A ++ qtC :: B, r) := by
  rw [parseStrBody_plain_run A _ hA, parseStrBody_bs_qt,
    parseStrBody_plain_closed B r hB]
  simp

theorem parseVal_succ_qt (f : Nat) (rest : List Char) :
    parseVal (Nat.succ f) (qtC :: rest) =
      (parseStrBody rest).map (fun p => (Json.str p.1, p.2)) := by
  rw [parseVal]
  rw [if_neg (by decide), if_neg (by decide), if_pos rfl]

theorem parseVal_succ_lb (f : Nat) (rest : List Char) :
    parseVal (Nat.succ f) (lbC :: rest) = parseObjTail f (jskip rest) := by
  rw [parseVal]
  rw [if_pos rfl]

theorem escChar_plain (c : Char) (h : plainChar c = true) :
    escChar c = [c] := by
  simp only [plainChar, Bool.and_eq_true, bne_iff_ne, ne_eq,
    decide_eq_true_eq] at h
  have h32 := h.2
  unfold escChar
  rw [if_neg h.1.1, if_neg h.1.2,
    if_neg (by intro he; subst he; revert h32; decide),
    if_neg (by intro he; subst he; revert h32; decide),
    if_neg (by intro he; subst he; revert h32; decide),
    if_neg (by intro he; subst he; revert h32; decide),
    if_neg (by intro he; subst he; revert h32; decide),
    if_neg (by omega)]

theorem escList_plain (s : List Char) (hs : ∀ c ∈ s, plainChar c = true) :
    escList s = s := by
  induction s with
  | nil => rfl
  | cons c rest ih =>
    unfold escList
    simp only [List.map_cons, List.flatten_cons,
      escChar_plain c (hs c (by simp))]
    have := ih (fun c hm => hs c (by simp [hm]))
    unfold escList at this
    rw [this]
    rfl

theorem parseVal_str_closed (f : Nat) (s r : List Char)
    (hs : ∀ c ∈ s, plainChar c = true) :
    parseVal (Nat.succ f) (jstr s ++ r) = some (.str s, r) := by
  unfold jstr
  rw [escList_plain s hs]
  rw [show (qtC :: s ++ [qtC]) ++ r = qtC :: (s ++ qtC :: r) from by simp]
  rw [parseVal_succ_qt, parseStrBody_plain_closed s r hs]
  rfl

theorem jskip_nws (c : Char) (r : List Char) (h : jsonWs c = false) :
    jskip (c :: r) = c :: r := by
  simp [jskip, List.dropWhile_cons, h]

theorem jskip_space (r : List Char) : jskip (' ' :: r) = jskip r := by
  simp [jskip, List.dropWhile_cons]
  intro h
  cases h

theorem fixWalk_false_ne (c : Char) (r : List Char) (h : (c == qtC) = false) :
    fixWalk false (c :: r) = c :: fixWalk false r := by
  conv_lhs => unfold fixWalk
  rw [h]

theorem fixWalk_false_qt (r : List Char) :
    fixWalk false (qtC :: r) = qtC :: fixWalk true r := by
  conv_lhs => unfold fixWalk
  rw [show (qtC == qtC) = true from by decide]

theorem fixWalk_true_plain (c : Char) (r : List Char)
    (h : plainChar c = true) :
    fixWalk true (c :: r) = c :: fixWalk true r := by
  simp only [plainChar, Bool.and_eq_true, bne_iff_ne, ne_eq,
    decide_eq_true_eq] at h
  have h32 := h.2
  conv_lhs => unfold fixWalk
  rw [if_neg h.1.2,
    if_neg (by intro he; subst he; revert h32; decide),
    if_neg h.1.1]

theorem fixWalk_true_plain_run (A r : List Char)
    (hA : ∀ c ∈ A, plainChar c = true) :
    fixWalk true (A ++ r) = A ++ fixWalk true r := by
  induction A with
  | nil => rfl
  | cons c rest ih =>
    rw [List.cons_append, fixWalk_true_plain c _ (hA c (by simp)),
      ih (fun c hm => hA c (by simp [hm]))]
    rfl

theorem isStructLookahead_cons (d : Char) (tl : List Char) :
    isStructLookahead (d :: tl) = (d = ',' || d = ':' || d = rbC || d = ']') := by
  simp [isStructLookahead]

theorem fixWalk_true_qt_structural (r rest2 : List Char) (d : Char)
    (hd : r.dropWhile pyWs = d :: rest2)
    (hs : (d = ',' || d = ':' || d = rbC || d = ']') = true) :
    fixWalk true (qtC :: r) = qtC :: fixWalk false r := by
  conv_lhs => unfold fixWalk
  rw [if_neg (by decide : ¬qtC = bsC),
    if_neg (by decide : ¬qtC = '\n'), if_pos rfl, hd,
    isStructLookahead_cons, if_pos hs]

theorem fixWalk_true_qt_escape (r rest2 : List Char) (d : Char)
    (hd : r.dropWhile pyWs = d :: rest2)
    (hs : (d = ',' || d = ':' || d = rbC || d = ']') = false) :
    fixWalk true (qtC :: r) = bsC :: qtC :: fixWalk true r := by
  conv_lhs => unfold fixWalk
  rw [if_neg (by decide : ¬qtC = bsC),
    if_neg (by decide : ¬qtC = '\n'), if_pos rfl, hd,
    isStructLookahead_cons, if_neg (by simp [hs])]

theorem rtcF_no_comma (cs : List Char) :
    ∀ f : Nat, (∀ c ∈ cs, (c == ',') = false) → rtcF f cs = cs := by
  induction cs with
  | nil => intro f _; cases f <;> rfl
  | cons c rest ih =>
    intro f h
    cases f with
    | zero => rfl
    | succ f =>
      rw [rtcF, if_neg (by simpa using h c (by simp)),
        ih f (fun c hm => h c (by simp [hm]))]

theorem rtc_no_comma (cs : List Char) (h : ∀ c ∈ cs, (c == ',') = false) :
    rtc cs = cs := rtcF_no_comma cs cs.length h

theorem parseObjTail_qt (f : Nat) (rest : List Char) :
    parseObjTail (Nat.succ f) (qtC :: rest) =
      (parseObjMems f (qtC :: rest)).map (fun p => (Json.obj p.1, p.2)) := by
  rw [parseObjTail, if_neg (by decide : ¬qtC = rbC)]

theorem parseObjMems_key_step (f : Nat) (key vs : List Char)
    (hkey : ∀ c ∈ key, plainChar c = true)
    (hv : jskip vs = vs) :
    parseObjMems (Nat.succ f) (qtC :: (key ++ qtC :: ':' :: ' ' :: vs)) =
      (parseVal f vs).bind (fun vr =>
        if (jskip vr.2).headD ' ' = ',' then
          (parseObjMems f (jskip (jskip vr.2).tail)).map
            (fun p => ((key, vr.1) :: p.1, p.2))
        else if (jskip vr.2).headD ' ' = rbC then
          some ([(key, vr.1)], (jskip vr.2).tail)
        else none) := by
  rw [parseObjMems, if_pos rfl, parseStrBody_plain_closed key _ hkey]
  simp only [Option.some_bind]
  rw [jskip_nws ':' _ (by decide), List.headD_cons, if_pos rfl,
    List.tail_cons, jskip_space, hv]

/-- A one-member JSON object document whose string value contains an
internal unescaped quote: the text the LLM would emit for
`\x7b"key": "A"bB"\x7d`, with `b` the first content character after the
internal quote. -/
def c4doc (key A B : List Char) (b : Char) : List Char :=
  lbC :: qtC :: (key ++ qtC :: ':' :: ' ' :: qtC ::
    (A ++ qtC :: b :: (B ++ [qtC, rbC])))

/-- The same document after the repair pass: the internal quote is escaped
with a backslash, everything else is untouched. -/
def c4fixed (key A B : List Char) (b : Char) : List Char :=
  lbC :: qtC :: (key ++ qtC :: ':' :: ' ' :: qtC ::
    (A ++ bsC :: qtC :: b :: (B ++ [qtC, rbC])))

theorem plain_of_c4 (c : Char) (h : c4Char c = true) : plainChar c = true := by
  simp only [c4Char, Bool.and_eq_true] at h
  exact h.1

theorem comma_false_of_c4 (c : Char) (h : c4Char c = true) :
    (c == ',') = false := by
  rcases Bool.eq_false_or_eq_true (c == ',') with ht | hf
  · have : c = ',' := by simpa using ht
    subst this
    exact absurd h (by decide)
  · exact hf

theorem plain_of_hard (c : Char) (h : hardChar c = true) : plainChar c = true := by
  simp only [hardChar, Bool.and_eq_true] at h
  exact h.1.1.1.1.1

theorem pyWs_false_of_hard (c : Char) (h : hardChar c = true) :
    pyWs c = false := by
  simp only [hardChar, Bool.and_eq_true, Bool.not_eq_true'] at h
  exact h.1.1.1.1.2

theorem comma_false_of_hard (c : Char) (h : hardChar c = true) :
    (c == ',') = false := by
  simp only [hardChar, Bool.and_eq_true] at h
  simpa using h.1.1.1.2

theorem struct_false_of_hard (c : Char) (h : hardChar c = true) :
    (c = ',' || c = ':' || c = rbC || c = ']') = false := by
  simp only [hardChar, Bool.and_eq_true, bne_iff_ne, ne_eq] at h
  simp [h.1.1.1.2, h.1.1.2, h.1.2, h.2]

/-- Quote close when the very next character is a non-space structural
delimiter. -/
theorem fixWalk_true_qt_nws_structural (d : Char) (tl : List Char)
    (hw : pyWs d = false)
    (hs : (d = ',' || d = ':' || d = rbC || d = ']') = true) :
    fixWalk true (qtC :: d :: tl) = qtC :: fixWalk false (d :: tl) :=
  fixWalk_true_qt_structural (d :: tl) tl d
    (by rw [List.dropWhile_cons, if_neg (by simp [hw])]) hs

/-- Quote escape when the very next character is ordinary non-space
content. -/
theorem fixWalk_true_qt_nws_escape (d : Char) (tl : List Char)
    (hw : pyWs d = false)
    (hs : (d = ',' || d = ':' || d = rbC || d = ']') = false) :
    fixWalk true (qtC :: d :: tl) = bsC :: qtC :: fixWalk true (d :: tl) :=
  fixWalk_true_qt_escape (d :: tl) tl d
    (by rw [List.dropWhile_cons, if_neg (by simp [hw])]) hs

theorem rtc_c4 (key A B : List Char) (b : Char)
    (hkey : ∀ c ∈ key, c4Char c = true)
    (hA : ∀ c ∈ A, c4Char c = true)
    (hB : ∀ c ∈ B, c4Char c = true)
    (hb : hardChar b = true) :
    rtc (c4doc key A B b) = c4doc key A B b := by
  apply rtc_no_comma
  have hgen : ∀ c : Char, c = lbC ∨ c = qtC ∨ c = ':' ∨ c = ' ' ∨ c = rbC ∨
      c = b ∨ c ∈ key ∨ c ∈ A ∨ c ∈ B → (c == ',') = false := by
    intro c h
    rcases h with rfl | rfl | rfl | rfl | rfl | rfl | h | h | h
    · decide
    · decide
    · decide
    · decide
    · decide
    · exact comma_false_of_hard _ hb
    · exact comma_false_of_c4 c (hkey c h)
    · exact comma_false_of_c4 c (hA c h)
    · exact comma_false_of_c4 c (hB c h)
  intro c hc
  apply hgen
  simp only [c4doc, List.mem_cons, List.mem_append, List.not_mem_nil] at hc
  tauto

theorem fixWalk_c4 (key A B : List Char) (b : Char)
    (hkey : ∀ c ∈ key, c4Char c = true)
    (hA : ∀ c ∈ A, c4Char c = true)
    (hB : ∀ c ∈ B, c4Char c = true)
    (hb : hardChar b = true) :
    fixWalk false (c4doc key A B b) = c4fixed key A B b := by
  have hkeyP : ∀ c ∈ key, plainChar c = true :=
    fun c hc => plain_of_c4 c (hkey c hc)
  have hAP : ∀ c ∈ A, plainChar c = true := fun c hc => plain_of_c4 c (hA c hc)
  have hBP : ∀ c ∈ B, plainChar c = true := fun c hc => plain_of_c4 c (hB c hc)
  simp only [c4doc, c4fixed]
  rw [fixWalk_false_ne lbC _ (by decide), fixWalk_false_qt,
    fixWalk_true_plain_run key _ hkeyP,
    fixWalk_true_qt_nws_structural ':' _ (by decide) (by decide),
    fixWalk_false_ne ':' _ (by decide), fixWalk_false_ne ' ' _ (by decide),
    fixWalk_false_qt, fixWalk_true_plain_run A _ hAP,
    fixWalk_true_qt_nws_escape b _ (pyWs_false_of_hard b hb)
      (struct_false_of_hard b hb),
    fixWalk_true_plain b _ (plain_of_hard b hb),
    fixWalk_true_plain_run B _ hBP,
    fixWalk_true_qt_nws_structural rbC _ (by decide) (by decide),
    fixWalk_false_ne rbC _ (by decide)]
  rfl

theorem parseVal_c4fixed (g : Nat) (key A B : List Char) (b : Char)
    (hkey : ∀ c ∈ key, plainChar c = true)
    (hA : ∀ c ∈ A, plainChar c = true)
    (hB : ∀ c ∈ B, plainChar c = true)
    (hb : plainChar b = true) :
    parseVal (g + 4) (c4fixed key A B b) =
      some (.obj [(key, .str (A ++ qtC :: b :: B))], []) := by
  have h4 : g + 4 = Nat.succ (g + 3) := rfl
  have h3 : g + 3 = Nat.succ (g + 2) := rfl
  have h2 : g + 2 = Nat.succ (g + 1) := rfl
  have h1 : g + 1 = Nat.succ g := rfl
  simp only [c4fixed]
  rw [h4, parseVal_succ_lb, jskip_nws qtC _ (by decide), h3, parseObjTail_qt,
    h2, parseObjMems_key_step (g + 1) key _ hkey (jskip_nws qtC _ (by decide)),
    h1, parseVal_succ_qt, parseStrBody_plain_run A _ hA, parseStrBody_bs_qt,
    show b :: (B ++ [qtC, rbC]) = (b :: B) ++ [qtC, rbC] by
      rw [List.cons_append],
    parseStrBody_plain_run (b :: B) _ (by
      intro c hc
      rcases List.mem_cons.mp hc with h | h
      · subst h; exact hb
      · exact hB c h),
    parseStrBody_qt]
  simp +decide [jskip]

theorem jloadsL_c4fixed (key A B : List Char) (b : Char)
    (hkey : ∀ c ∈ key, plainChar c = true)
    (hA : ∀ c ∈ A, plainChar c = true)
    (hB : ∀ c ∈ B, plainChar c = true)
    (hb : plainChar b = true) :
    jloadsL (c4fixed key A B b) =
      some (.obj [(key, .str (A ++ qtC :: b :: B))]) := by
  have hfuel : 3 * (c4fixed key A B b).length + 3 =
      (3 * (c4fixed key A B b).length - 1) + 4 := by
    have h1 : 1 ≤ (c4fixed key A B b).length := by simp [c4fixed]
    omega
  have hj : jskip (c4fixed key A B b) = c4fixed key A B b := by
    simp only [c4fixed]
    exact jskip_nws lbC _ (by decide)
  unfold jloadsL
  rw [hj, hfuel, parseVal_c4fixed _ key A B b hkey hA hB hb]
  simp [jskip]

/-- C4: for a one-member object document whose string value holds an
internal unescaped quote followed by an ordinary content character `b` and
then content and the structural close, the repair pass `_fix_json` escapes
exactly the internal quote (the trailing-comma pass leaves the comma-free
text alone), and strict decoding of the repaired text recovers the object
whose field value carries the quote literally: the round trip
decode(repair(text)).field yields the intended content `A"bB`. -/
theorem C4_repair_round_trip (key A B : List Char) (b : Char)
    (hkey : ∀ c ∈ key, c4Char c = true)
    (hA : ∀ c ∈ A, c4Char c = true)
    (hB : ∀ c ∈ B, c4Char c = true)
    (hb : hardChar b = true) :
    fixJson (c4doc key A B b) = c4fixed key A B b ∧
      jloadsL (fixJson (c4doc key A B b)) =
        some (.obj [(key, .str (A ++ qtC :: b :: B))]) := by
  have hfix : fixJson (c4doc key A B b) = c4fixed key A B b := by
    rw [fixJson, rtc_c4 key A B b hkey hA hB hb,
      fixWalk_c4 key A B b hkey hA hB hb]
  refine ⟨hfix, ?_⟩
  rw [hfix]
  exact jloadsL_c4fixed key A B b (fun c hc => plain_of_c4 c (hkey c hc))
    (fun c hc => plain_of_c4 c (hA c hc))
    (fun c hc => plain_of_c4 c (hB c hc)) (plain_of_hard b hb)

/-- Concrete instance of C4: the document for key `k`, value `x"zy`. -/
theorem C4_repair_round_trip_witness :
    fixJson (c4doc ['k'] ['x'] ['y'] 'z') = c4fixed ['k'] ['x'] ['y'] 'z' ∧
      jloadsL (fixJson (c4doc ['k'] ['x'] ['y'] 'z')) =
        some (.obj [(['k'], .str (['x'] ++ qtC :: 'z' :: ['y']))]) :=
  C4_repair_round_trip ['k'] ['x'] ['y'] 'z' (by decide) (by decide)
    (by decide) (by decide)

/-- ASCII letters, by code point. -/
def c3Letter (c : Char) : Bool :=
  (97 ≤ c.toNat && c.toNat ≤ 122) || (65 ≤ c.toNat && c.toNat ≤ 90)

/-- Prose characters surrounding the object: letters and plain spaces. -/
def c3Prose (c : Char) : Bool := c3Letter c || c = ' '

/-- Admissible first prose character: a letter that does not begin one of
the JSON keywords `true`, `false`, `null`. -/
def c3Head (c : Char) : Bool := c3Letter c && c != 't' && c != 'f' && c != 'n'

theorem c3Letter_bounds (c : Char) (h : c3Letter c = true) :
    (97 ≤ c.toNat ∧ c.toNat ≤ 122) ∨ (65 ≤ c.toNat ∧ c.toNat ≤ 90) := by
  simp only [c3Letter, Bool.or_eq_true, Bool.and_eq_true, decide_eq_true_eq] at h
  exact h

theorem c3Letter_ne (c d : Char) (h : c3Letter c = true)
    (hd : c3Letter d = false) : ¬(c = d) := by
  intro he
  subst he
  rw [h] at hd
  cases hd

theorem c3Letter_not_jsonWs (c : Char) (h : c3Letter c = true) :
    jsonWs c = false := by
  have hb := c3Letter_bounds c h
  rcases Bool.eq_false_or_eq_true (jsonWs c) with ht | hf
  · exfalso
    have hc : ((c = ' ' ∨ c = '\t') ∨ c = '\n') ∨ c = '\x0d' := by
      simpa [jsonWs] using ht
    rcases hc with ((rfl | rfl) | rfl) | rfl <;> (revert hb; decide)
  · exact hf

theorem c3Letter_not_pyWs (c : Char) (h : c3Letter c = true) :
    pyWs c = false := by
  have hb := c3Letter_bounds c h
  rcases Bool.eq_false_or_eq_true (pyWs c) with ht | hf
  · exfalso
    have hc : ((((c = ' ' ∨ c = '\t') ∨ c = '\n') ∨ c = '\x0d') ∨
        c = Char.ofNat 11) ∨ c = Char.ofNat 12 := by
      simpa [pyWs] using ht
    rcases hc with ((((rfl | rfl) | rfl) | rfl) | rfl) | rfl <;> (revert hb; decide)
  · exact hf

theorem c3Letter_not_digit (c : Char) (h : c3Letter c = true) :
    c.isDigit = false := by
  have hb := c3Letter_bounds c h
  rcases Bool.eq_false_or_eq_true c.isDigit with ht | hf
  · exfalso
    have h2 : 48 ≤ c.toNat ∧ c.toNat ≤ 57 := by
      simp [Char.isDigit] at ht
      exact ht
    rcases hb with hb | hb <;> omega
  · exact hf

theorem c3Head_letter (c : Char) (h : c3Head c = true) : c3Letter c = true := by
  simp only [c3Head, Bool.and_eq_true] at h
  exact h.1.1.1

theorem c3Prose_ne_lb (c : Char) (h : c3Prose c = true) : (c == lbC) = false := by
  simp only [c3Prose, Bool.or_eq_true, decide_eq_true_eq] at h
  rcases h with h | rfl
  · rw [beq_eq_false_iff_ne]
    exact c3Letter_ne c lbC h (by decide)
  · decide

/-- A prose-leading character defeats every branch of the strict JSON value
decoder. -/
theorem parseVal_prose_head (f : Nat) (c : Char) (rest : List Char)
    (h : c3Head c = true) :
    parseVal (Nat.succ f) (c :: rest) = none := by
  have hL := c3Head_letter c h
  have hkw := h
  simp only [c3Head, Bool.and_eq_true, bne_iff_ne, ne_eq] at hkw
  have hnum : ¬((c = '-' || c.isDigit) = true) := by
    intro hcon
    simp only [Bool.or_eq_true, decide_eq_true_eq] at hcon
    rcases hcon with he | hdig
    · exact c3Letter_ne c '-' hL (by decide) he
    · rw [c3Letter_not_digit c hL] at hdig
      cases hdig
  have ht4 : ¬(['t', 'r', 'u', 'e'].isPrefixOf (c :: rest) = true) := by
    intro hp
    simp only [List.isPrefixOf, Bool.and_eq_true, beq_iff_eq] at hp
    exact hkw.1.1.2 hp.1.symm
  have hf5 : ¬(['f', 'a', 'l', 's', 'e'].isPrefixOf (c :: rest) = true) := by
    intro hp
    simp only [List.isPrefixOf, Bool.and_eq_true, beq_iff_eq] at hp
    exact hkw.1.2 hp.1.symm
  have hn4 : ¬(['n', 'u', 'l', 'l'].isPrefixOf (c :: rest) = true) := by
    intro hp
    simp only [List.isPrefixOf, Bool.and_eq_true, beq_iff_eq] at hp
    exact hkw.2 hp.1.symm
  rw [parseVal, if_neg (c3Letter_ne c lbC hL (by decide)),
    if_neg (c3Letter_ne c '[' hL (by decide)),
    if_neg (c3Letter_ne c qtC hL (by decide)),
    if_neg hnum, if_neg ht4, if_neg hf5, if_neg hn4]

/-- A text that opens with a prose-leading character never decodes as
strict JSON. -/
theorem jloadsL_prose_head (c : Char) (rest : List Char)
    (h : c3Head c = true) : jloadsL (c :: rest) = none := by
  have hL := c3Head_letter c h
  have hfuel : 3 * (c :: rest).length + 3 = Nat.succ (3 * (c :: rest).length + 2) := rfl
  unfold jloadsL
  rw [jskip_nws c rest (c3Letter_not_jsonWs c hL), hfuel,
    parseVal_prose_head _ c rest h]

/-- The repair pass keeps a leading letter in place: it is not a comma, so
the trailing-comma pass leaves it, and it is not a quote, so the walk just
copies it. -/
theorem fixJson_cons_letter (c : Char) (rest : List Char)
    (hL : c3Letter c = true) : fixJson (c :: rest) = c :: fixJson rest := by
  have hq : (c == qtC) = false := by
    rw [beq_eq_false_iff_ne]
    exact c3Letter_ne c qtC hL (by decide)
  rw [fixJson, fixJson, rtc, rtc,
    show (c :: rest).length = Nat.succ rest.length from rfl,
    rtcF, if_neg (c3Letter_ne c ',' hL (by decide)),
    fixWalk_false_ne c _ hq]

/-- `preprocess` is the identity on text that opens with a visible
non-fence character and ends with a non-space character. -/
theorem preprocess_id (c : Char) (mid : List Char) (d : Char)
    (hc : pyWs c = false) (hb : (btC == c) = false) (hd : pyWs d = false) :
    preprocess (c :: (mid ++ [d])) = c :: (mid ++ [d]) := by
  have hstrip : pyStrip (c :: (mid ++ [d])) = c :: (mid ++ [d]) := by
    unfold pyStrip pyLstrip pyRstrip
    rw [List.dropWhile_cons, if_neg (by simp [hc])]
    have hrev : (c :: (mid ++ [d])).reverse = d :: (mid.reverse ++ [c]) := by
      simp
    rw [hrev, List.dropWhile_cons, if_neg (by simp [hd])]
    rw [← hrev, List.reverse_reverse]
  simp only [preprocess]
  rw [hstrip]
  rw [if_neg (by simp [fenceMark, List.isPrefixOf, hb])]

/-- Index of the first left brace after a brace-free run. -/
theorem findIdx_lb (p1 tl : List Char)
    (hp : ∀ c ∈ p1, (c == lbC) = false) :
    List.findIdx? (fun c => c == lbC) (p1 ++ lbC :: tl) = some p1.length := by
  induction p1 with
  | nil => simp [List.findIdx?_cons]
  | cons c rest ih =>
    simp [List.findIdx?_cons, hp c (by simp),
      ih (fun c hm => hp c (by simp [hm]))]

/-- A depth-zero scan result transfers across an appended suffix. -/
theorem braceSpan_append (s t : List Char) (d : Int) (k : Nat)
    (h : braceSpan s d = some k) : braceSpan (s ++ t) d = some k := by
  induction s generalizing d k with
  | nil => simp [braceSpan] at h
  | cons c rest ih =>
    rw [List.cons_append]
    rw [braceSpan] at h ⊢
    generalize he : (if c = lbC then d + 1 else if c = rbC then d - 1 else d) = e at h ⊢
    by_cases hc : (decide (c = rbC) && decide (e = 0)) = true
    · rw [if_pos hc] at h ⊢
      exact h
    · rw [if_neg hc] at h ⊢
      cases hbs : braceSpan rest e with
      | none => rw [hbs] at h; simp at h
      | some kk =>
        rw [hbs] at h
        simp at h
        rw [ih _ _ hbs]
        simp [h]

/-- Counterexample to C3 as stated: the text `x \x7b"a": "\x7d"\x7d y` holds
exactly one valid JSON object surrounded by prose, yet `extract_json` fails
with the length error: the brace-depth scan is oblivious to string state,
cuts the candidate at the quote-protected right brace inside the value, and
both the strict and the repaired decode of that truncated candidate fail. -/
theorem C3_oblivious_brace_scan_cex :
    jloadsL [lbC, qtC, 'a', qtC, ':', ' ', qtC, rbC, qtC, rbC] =
      some (.obj [(['a'], .str [rbC])]) ∧
    extractJsonL
        ['x', ' ', lbC, qtC, 'a', qtC, ':', ' ', qtC, rbC, qtC, rbC, ' ', 'y'] =
      .error 14 := by
  constructor
  · rfl
  · rfl

/-- C3 (amended): for text made of a prose prefix (letters and spaces, led
by a letter that opens no JSON keyword), one valid JSON object whose
depth-zero scan closes at its final brace — in particular an object whose
strings contain no braces — and a letter-only prose suffix, the recovery
parser returns the object through the brace-matching fallback. The
unrestricted claim is false: a right brace inside a string value derails
the string-state-oblivious scan (see the counterexample). -/
theorem C3_brace_fallback_amended (h0 : Char) (p1r s2 p2 : List Char) (v : Json)
    (hh : c3Head h0 = true)
    (hp1 : ∀ c ∈ p1r, c3Prose c = true)
    (hp2 : ∀ c ∈ p2, c3Letter c = true)
    (hv : jloadsL ((lbC :: s2) ++ [rbC]) = some v)
    (hspan : braceSpan ((lbC :: s2) ++ [rbC]) 0 = some (s2.length + 1)) :
    extractJsonL ((h0 :: p1r) ++ ((lbC :: s2) ++ [rbC]) ++ p2) = .ok v := by
  have hL := c3Head_letter h0 hh
  have hrawnorm : (h0 :: p1r) ++ ((lbC :: s2) ++ [rbC]) ++ p2 =
      h0 :: (p1r ++ lbC :: (s2 ++ rbC :: p2)) := by simp
  rw [hrawnorm]
  have hpre : preprocess (h0 :: (p1r ++ lbC :: (s2 ++ rbC :: p2))) =
      h0 :: (p1r ++ lbC :: (s2 ++ rbC :: p2)) := by
    rcases List.eq_nil_or_concat p2 with rfl | ⟨q, dl, rfl⟩
    · have := preprocess_id h0 (p1r ++ lbC :: s2) rbC
        (c3Letter_not_pyWs h0 hL)
        (by
          rw [beq_eq_false_iff_ne]
          intro he
          exact c3Letter_ne h0 btC hL (by decide) he.symm)
        (by decide)
      simpa using this
    · have hdl : c3Letter dl = true := hp2 dl (by simp)
      have := preprocess_id h0 (p1r ++ lbC :: (s2 ++ rbC :: q)) dl
        (c3Letter_not_pyWs h0 hL)
        (by
          rw [beq_eq_false_iff_ne]
          intro he
          exact c3Letter_ne h0 btC hL (by decide) he.symm)
        (c3Letter_not_pyWs dl hdl)
      simpa using this
  have h1 : jloadsL (h0 :: (p1r ++ lbC :: (s2 ++ rbC :: p2))) = none :=
    jloadsL_prose_head h0 _ hh
  have h2 : jloadsL (fixJson (h0 :: (p1r ++ lbC :: (s2 ++ rbC :: p2)))) = none := by
    rw [fixJson_cons_letter h0 _ hL]
    exact jloadsL_prose_head h0 _ hh
  have hfind : List.findIdx? (fun c => c == lbC)
      (h0 :: (p1r ++ lbC :: (s2 ++ rbC :: p2))) = some (p1r.length + 1) := by
    have hmem : ∀ c ∈ (h0 :: p1r), (c == lbC) = false := by
      intro c hc
      rcases List.mem_cons.mp hc with rfl | hc
      · rw [beq_eq_false_iff_ne]
        exact c3Letter_ne c lbC hL (by decide)
      · exact c3Prose_ne_lb c (hp1 c hc)
    have := findIdx_lb (h0 :: p1r) (s2 ++ rbC :: p2) hmem
    simpa using this
  have hdrop : (h0 :: (p1r ++ lbC :: (s2 ++ rbC :: p2))).drop (p1r.length + 1) =
      lbC :: (s2 ++ rbC :: p2) := by
    rw [List.drop_succ_cons]
    exact List.drop_left p1r _
  have hspan2 : braceSpan (lbC :: (s2 ++ rbC :: p2)) 0 = some (s2.length + 1) := by
    have := braceSpan_append ((lbC :: s2) ++ [rbC]) p2 0 (s2.length + 1) hspan
    simpa using this
  have htake : (lbC :: (s2 ++ rbC :: p2)).take (s2.length + 1 + 1) =
      lbC :: (s2 ++ [rbC]) := by
    have hinner : (s2 ++ rbC :: p2).take (s2.length + 1) = s2 ++ [rbC] := by
      rw [show s2 ++ rbC :: p2 = (s2 ++ [rbC]) ++ p2 by simp,
        show s2.length + 1 = (s2 ++ [rbC]).length by simp]
      exact List.take_left _ _
    rw [List.take_succ_cons, hinner]
  have hv2 : jloadsL (lbC :: (s2 ++ [rbC])) = some v := by simpa using hv
  simp only [extractJsonL, hpre, h1, h2, hfind, hdrop, hspan2, htake, hv2]


/-- Witness: prose `q`, object `\x7b"a": 1\x7d`, prose `w`. -/
theorem C3_brace_fallback_amended_witness :
    extractJsonL (('q' :: []) ++
        ((lbC :: [qtC, 'a', qtC, ':', ' ', '1']) ++ [rbC]) ++ ['w']) =
      .ok (.obj [(['a'], .num 1)]) :=
  C3_brace_fallback_amended 'q' [] [qtC, 'a', qtC, ':', ' ', '1'] ['w']
    (.obj [(['a'], .num 1)]) (by decide) (by simp) (by decide) (by rfl) (by rfl)

theorem digitChar_isDigit (d : Nat) (h : d < 10) :
    (digitChar d).isDigit = true := by
  interval_cases d <;> decide

theorem digitChar_toNat (d : Nat) (h : d < 10) :
    (digitChar d).toNat = 48 + d := by
  interval_cases d <;> decide

theorem digitChar_ne_zero (d : Nat) (h1 : 1 ≤ d) (h2 : d < 10) :
    ¬(digitChar d = '0') := by
  interval_cases d <;> decide

theorem isDigit_ne (c d : Char) (h : c.isDigit = true) (hd : d.isDigit = false) :
    ¬(c = d) := by
  intro he
  subst he
  rw [h] at hd
  cases hd

theorem natDigits_digits (n : Nat) : ∀ c ∈ natDigits n, c.isDigit = true := by
  induction n using Nat.strong_induction_on with
  | _ n ih =>
    rw [natDigits]
    split
    · rename_i h
      intro c hc
      simp at hc
      subst hc
      exact digitChar_isDigit n h
    · rename_i h
      intro c hc
      rcases List.mem_append.mp hc with hc | hc
      · exact ih (n / 10) (Nat.div_lt_self (by omega) (by omega)) c hc
      · simp at hc
        subst hc
        exact digitChar_isDigit (n % 10) (Nat.mod_lt _ (by omega))

theorem digitsToNat_append_one (xs : List Char) (c : Char) :
    digitsToNat (xs ++ [c]) = digitsToNat xs * 10 + (c.toNat - 48) := by
  simp [digitsToNat, List.foldl_append]

theorem digitsToNat_natDigits (n : Nat) : digitsToNat (natDigits n) = n := by
  induction n using Nat.strong_induction_on with
  | _ n ih =>
    rw [natDigits]
    split
    · rename_i h
      simp [digitsToNat, digitChar_toNat n h]
    · rename_i h
      rw [digitsToNat_append_one,
        ih (n / 10) (Nat.div_lt_self (by omega) (by omega)),
        digitChar_toNat (n % 10) (Nat.mod_lt _ (by omega))]
      omega

theorem natDigits_cons (n : Nat) :
    ∃ d ds, natDigits n = d :: ds ∧ d.isDigit = true ∧ (1 ≤ n → ¬(d = '0')) := by
  induction n using Nat.strong_induction_on with
  | _ n ih =>
    rw [natDigits]
    split
    · rename_i h
      refine ⟨digitChar n, [], rfl, digitChar_isDigit n h, fun h1 => ?_⟩
      exact digitChar_ne_zero n h1 h
    · rename_i h
      obtain ⟨d, ds, hnd, hdig, hz⟩ :=
        ih (n / 10) (Nat.div_lt_self (by omega) (by omega))
      refine ⟨d, ds ++ [digitChar (n % 10)], ?_, hdig, fun _ => hz (by omega)⟩
      rw [hnd]
      simp

theorem takeWhile_all_append (p : Char → Bool) (ds r : List Char)
    (h : ∀ c ∈ ds, p c = true) :
    (ds ++ r).takeWhile p = ds ++ r.takeWhile p := by
  induction ds with
  | nil => simp
  | cons c rest ih =>
    rw [List.cons_append, List.takeWhile_cons, if_pos (by simp [h c (by simp)]),
      ih (fun c hm => h c (by simp [hm])), List.cons_append]

theorem dropWhile_all_append (p : Char → Bool) (ds r : List Char)
    (h : ∀ c ∈ ds, p c = true) :
    (ds ++ r).dropWhile p = r.dropWhile p := by
  induction ds with
  | nil => simp
  | cons c rest ih =>
    rw [List.cons_append, List.dropWhile_cons, if_pos (by simp [h c (by simp)]),
      ih (fun c hm => h c (by simp [hm]))]

/-- Decoding the decimal digits of `n` followed by a comma yields `n`. -/
theorem parseNum_natDigits (n : Nat) (rr : List Char) :
    parseNum (natDigits n ++ ',' :: rr) = some (.num n, ',' :: rr) := by
  obtain ⟨d, ds, hnd, hdig, hz⟩ := natDigits_cons n
  have hdsdig : ∀ c ∈ ds, c.isDigit = true := by
    intro c hc
    exact natDigits_digits n c (by rw [hnd]; simp [hc])
  rcases Nat.eq_zero_or_pos n with rfl | hpos
  · have h0 : natDigits 0 = ['0'] := by rw [natDigits]; rfl
    rw [h0]
    simp only [List.cons_append, List.nil_append, parseNum, List.headD_cons]
    rw [if_neg (by decide), parseNumAbs, if_pos rfl,
      if_neg (by simp [startsFrac])]
    simp
  · rw [hnd, List.cons_append]
    simp only [parseNum, List.headD_cons]
    rw [if_neg (isDigit_ne d '-' hdig (by decide))]
    rw [parseNumAbs, if_neg (hz hpos), if_pos hdig,
      dropWhile_all_append Char.isDigit ds (',' :: rr) hdsdig,
      List.dropWhile_cons, if_neg (by decide : ¬(','.isDigit = true)),
      if_neg (by simp [startsFrac]),
      takeWhile_all_append Char.isDigit ds (',' :: rr) hdsdig,
      List.takeWhile_cons]
    rw [if_neg (by decide : ¬(','.isDigit = true)), List.append_nil,
      if_neg (by decide : ¬(false = true)),
      show d :: ds = natDigits n from hnd.symm, digitsToNat_natDigits]

theorem parseVal_num (g : Nat) (n : Nat) (rr : List Char) :
    parseVal (Nat.succ g) (natDigits n ++ ',' :: rr) = some (.num n, ',' :: rr) := by
  obtain ⟨d, ds, hnd, hdig, _⟩ := natDigits_cons n
  rw [hnd, List.cons_append, parseVal,
    if_neg (isDigit_ne d lbC hdig (by decide)),
    if_neg (isDigit_ne d '[' hdig (by decide)),
    if_neg (isDigit_ne d qtC hdig (by decide)),
    if_pos (by simp [hdig]),
    ← List.cons_append, ← hnd, parseNum_natDigits]

theorem parseVal_true (g : Nat) (r : List Char) :
    parseVal (Nat.succ g) ('t' :: 'r' :: 'u' :: 'e' :: r) = some (.bool true, r) := by
  rw [parseVal, if_neg (by decide : ¬('t' = lbC)),
    if_neg (by decide : ¬('t' = '[')), if_neg (by decide : ¬('t' = qtC)),
    if_neg (by decide : ¬(('t' = '-' || 't'.isDigit) = true)),
    if_pos (by simp [List.isPrefixOf])]
  simp

theorem parseVal_false (g : Nat) (r : List Char) :
    parseVal (Nat.succ g) ('f' :: 'a' :: 'l' :: 's' :: 'e' :: r) =
      some (.bool false, r) := by
  rw [parseVal, if_neg (by decide : ¬('f' = lbC)),
    if_neg (by decide : ¬('f' = '[')), if_neg (by decide : ¬('f' = qtC)),
    if_neg (by decide : ¬(('f' = '-' || 'f'.isDigit) = true)),
    if_neg (by simp [List.isPrefixOf]),
    if_pos (by simp [List.isPrefixOf])]
  simp

theorem parseVal_null (g : Nat) (r : List Char) :
    parseVal (Nat.succ g) ('n' :: 'u' :: 'l' :: 'l' :: r) = some (.null, r) := by
  rw [parseVal, if_neg (by decide : ¬('n' = lbC)),
    if_neg (by decide : ¬('n' = '[')), if_neg (by decide : ¬('n' = qtC)),
    if_neg (by decide : ¬(('n' = '-' || 'n'.isDigit) = true)),
    if_neg (by simp [List.isPrefixOf]),
    if_neg (by simp [List.isPrefixOf]),
    if_pos (by simp [List.isPrefixOf])]
  simp

theorem jarrBody_cons (t : List Char) (ts : List (List Char)) :
    ∃ bs, jarrBody (t :: ts) = qtC :: bs := by
  cases ts with
  | nil => exact ⟨escList t ++ [qtC], rfl⟩
  | cons t2 ts =>
    refine ⟨(escList t ++ [qtC]) ++ ", ".toList ++ jarrBody (t2 :: ts), ?_⟩
    rw [jarrBody]
    simp [jstr]

theorem jarrBody_length_ge (ts : List (List Char)) :
    ts.length ≤ (jarrBody ts).length := by
  induction ts with
  | nil => simp [jarrBody]
  | cons t ts ih =>
    cases ts with
    | nil => simp [jarrBody, jstr]
    | cons t2 ts2 =>
      rw [jarrBody]
      simp only [List.length_append, List.length_cons]
      simp at ih ⊢
      omega

theorem parseArrElems_strs (ts : List (List Char)) :
    ∀ (t : List Char) (g : Nat) (r : List Char),
    (∀ c ∈ t, plainChar c = true) →
    (∀ t2 ∈ ts, ∀ c ∈ t2, plainChar c = true) →
    parseArrElems (g + ts.length + 2) (jarrBody (t :: ts) ++ ']' :: r) =
      some ((t :: ts).map .str, r) := by
  induction ts with
  | nil =>
    intro t g r ht _
    rw [show jarrBody [t] = jstr t from rfl, List.length_nil, parseArrElems,
      parseVal_str_closed _ t _ ht]
    simp only [Option.some_bind]
    rw [jskip_nws ']' _ (by decide)]
    simp
  | cons t2 ts ih =>
    intro t g r ht hts
    rw [show jarrBody (t :: t2 :: ts) =
        jstr t ++ ", ".toList ++ jarrBody (t2 :: ts) from rfl,
      List.length_cons, parseArrElems, List.append_assoc, List.append_assoc,
      parseVal_str_closed _ t _ ht]
    simp only [Option.some_bind]
    rw [show (", ".toList : List Char) = ',' :: ' ' :: [] from rfl]
    simp only [List.cons_append, List.nil_append]
    rw [jskip_nws ',' _ (by decide)]
    simp only [List.headD_cons, List.tail_cons]
    rw [if_pos trivial, jskip_space]
    obtain ⟨bs, hbs⟩ := jarrBody_cons t2 ts
    rw [hbs, List.cons_append, jskip_nws qtC _ (by decide), ← List.cons_append,
      ← hbs,
      show g + (ts.length + 1) + 1 = g + ts.length + 2 from by omega,
      ih t2 g r (hts t2 (by simp)) (fun t3 hm c hc => hts t3 (by simp [hm]) c hc)]
    simp

theorem parseArrTail_strs (ts : List (List Char)) (g : Nat) (r : List Char)
    (hts : ∀ t ∈ ts, ∀ c ∈ t, plainChar c = true) :
    parseArrTail (g + ts.length + 3) (jarrBody ts ++ ']' :: r) =
      some (.arr (ts.map .str), r) := by
  cases ts with
  | nil =>
    rw [show jarrBody [] = [] from rfl, List.nil_append, parseArrTail,
      if_pos rfl]
    simp
  | cons t ts =>
    obtain ⟨bs, hbs⟩ := jarrBody_cons t ts
    rw [hbs, List.cons_append, List.length_cons, parseArrTail,
      if_neg (by decide : ¬(qtC = ']')), ← List.cons_append, ← hbs,
      show g + (ts.length + 1) + 2 = (g + 1) + ts.length + 2 from by omega,
      parseArrElems_strs ts t (g + 1) r (hts t (by simp))
        (fun t3 hm c hc => hts t3 (by simp [hm]) c hc)]
    simp

theorem parseVal_arr (g : Nat) (ts : List (List Char)) (r : List Char)
    (hts : ∀ t ∈ ts, ∀ c ∈ t, plainChar c = true) :
    parseVal (g + ts.length + 4) ('[' :: (jarrBody ts ++ ']' :: r)) =
      some (.arr (ts.map .str), r) := by
  rw [parseVal, if_neg (by decide : ¬('[' = lbC)), if_pos rfl]
  have hj : jskip (jarrBody ts ++ ']' :: r) = jarrBody ts ++ ']' :: r := by
    cases ts with
    | nil => exact jskip_nws ']' _ (by decide)
    | cons t ts =>
      obtain ⟨bs, hbs⟩ := jarrBody_cons t ts
      rw [hbs, List.cons_append, jskip_nws qtC _ (by decide), ← List.cons_append,
        ← hbs]
  rw [hj, parseArrTail_strs ts g r hts]

/-- Serialized tail of the log line from the `message` member on: the last
member of the nested result object, closing both objects. -/
def entNest2 (e : PublishLogEntry) : List Char :=
  qtC :: ("message".toList ++ qtC :: ':' :: ' ' ::
    (qtC :: (e.message ++ qtC :: rbC :: rbC :: [])))

/-- Serialized members of the nested result object from `url` on. -/
def entNest1 (e : PublishLogEntry) : List Char :=
  qtC :: ("url".toList ++ qtC :: ':' :: ' ' ::
    ((match e.url with
      | none => 'n' :: 'u' :: 'l' :: 'l' :: []
      | some u => qtC :: (u ++ [qtC])) ++ ',' :: ' ' :: entNest2 e))

/-- Serialized members of the nested result object from `success` on. -/
def entNest0 (e : PublishLogEntry) : List Char :=
  qtC :: ("success".toList ++ qtC :: ':' :: ' ' ::
    ((if e.success then "true".toList else "false".toList) ++
      ',' :: ' ' :: entNest1 e))

theorem isDigit_not_jsonWs (c : Char) (h : c.isDigit = true) :
    jsonWs c = false := by
  rcases Bool.eq_false_or_eq_true (jsonWs c) with ht | hf
  · exfalso
    have hc : ((c = ' ' ∨ c = '\t') ∨ c = '\n') ∨ c = '\x0d' := by
      simpa [jsonWs] using ht
    rcases hc with ((rfl | rfl) | rfl) | rfl <;> (revert h; decide)
  · exact hf

/-- `parseObjTail` peels a quote-headed member list. -/
theorem parseObjTail_qt2 (f : Nat) (xs : List Char) (h : xs.headD ' ' = qtC) :
    parseObjTail (Nat.succ f) xs =
      (parseObjMems f xs).map (fun p => (Json.obj p.1, p.2)) := by
  cases xs with
  | nil => exact absurd h (by decide)
  | cons c rest =>
    rw [List.headD_cons] at h
    subst h
    exact parseObjTail_qt f rest

theorem mems_nest2 (e : PublishLogEntry) (g : Nat)
    (hmsg : ∀ c ∈ e.message, plainChar c = true) :
    parseObjMems (g + 2) (entNest2 e) =
      some ([("message".toList, .str e.message)], [rbC]) := by
  rw [entNest2, parseObjMems_key_step _ "message".toList _ (by decide)
    (jskip_nws qtC _ (by decide)),
    parseVal_succ_qt, parseStrBody_plain_closed e.message _ hmsg]
  simp +decide [jskip]

theorem mems_nest1 (e : PublishLogEntry) (g : Nat)
    (hurl : ∀ u, e.url = some u → ∀ c ∈ u, plainChar c = true)
    (hmsg : ∀ c ∈ e.message, plainChar c = true) :
    parseObjMems (g + 3) (entNest1 e) =
      some ([("url".toList,
              match e.url with | none => Json.null | some u => .str u),
             ("message".toList, .str e.message)], [rbC]) := by
  have hj2 : jskip (entNest2 e) = entNest2 e := by
    rw [entNest2]
    exact jskip_nws qtC _ (by decide)
  cases hu : e.url with
  | none =>
    rw [entNest1, hu]
    simp only [List.cons_append, List.nil_append]
    rw [parseObjMems_key_step _ "url".toList _ (by decide)
      (jskip_nws 'n' _ (by decide)), parseVal_null]
    simp only [Option.some_bind]
    rw [jskip_nws ',' _ (by decide)]
    simp only [List.headD_cons, List.tail_cons]
    rw [if_pos (by trivial), jskip_space, hj2, mems_nest2 e g hmsg]
    simp
  | some u =>
    rw [entNest1, hu]
    simp only [List.cons_append, List.nil_append, List.append_assoc,
      List.singleton_append]
    rw [parseObjMems_key_step _ "url".toList _ (by decide)
      (jskip_nws qtC _ (by decide)),
      parseVal_succ_qt, parseStrBody_plain_closed u _ (hurl u hu)]
    simp only [Option.map_some', Option.some_bind]
    rw [jskip_nws ',' _ (by decide)]
    simp only [List.headD_cons, List.tail_cons]
    rw [if_pos (by trivial), jskip_space, hj2, mems_nest2 e g hmsg]
    simp

theorem mems_nest0 (e : PublishLogEntry) (g : Nat)
    (hurl : ∀ u, e.url = some u → ∀ c ∈ u, plainChar c = true)
    (hmsg : ∀ c ∈ e.message, plainChar c = true) :
    parseObjMems (g + 4) (entNest0 e) =
      some ([("success".toList, .bool e.success),
             ("url".toList,
              match e.url with | none => Json.null | some u => .str u),
             ("message".toList, .str e.message)], [rbC]) := by
  have hj1 : jskip (entNest1 e) = entNest1 e := by
    rw [entNest1]
    exact jskip_nws qtC _ (by decide)
  cases hs : e.success with
  | true =>
    rw [entNest0, hs, if_pos (by trivial),
      show ("true".toList : List Char) = 't' :: 'r' :: 'u' :: 'e' :: [] from rfl]
    simp only [List.cons_append, List.nil_append]
    rw [parseObjMems_key_step _ "success".toList _ (by decide)
      (jskip_nws 't' _ (by decide)), parseVal_true]
    simp only [Option.some_bind]
    rw [jskip_nws ',' _ (by decide)]
    simp only [List.headD_cons, List.tail_cons]
    rw [if_pos (by trivial), jskip_space, hj1, mems_nest1 e g hurl hmsg]
    simp
  | false =>
    rw [entNest0, hs, if_neg (by simp),
      show ("false".toList : List Char) = 'f' :: 'a' :: 'l' :: 's' :: 'e' :: []
        from rfl]
    simp only [List.cons_append, List.nil_append]
    rw [parseObjMems_key_step _ "success".toList _ (by decide)
      (jskip_nws 'f' _ (by decide)), parseVal_false]
    simp only [Option.some_bind]
    rw [jskip_nws ',' _ (by decide)]
    simp only [List.headD_cons, List.tail_cons]
    rw [if_pos (by trivial), jskip_space, hj1, mems_nest1 e g hurl hmsg]
    simp

/-- Decoded value of the nested result object. -/
def entResultJson (e : PublishLogEntry) : Json :=
  .obj [("success".toList, .bool e.success),
        ("url".toList,
         match e.url with | none => Json.null | some u => .str u),
        ("message".toList, .str e.message)]

theorem parseVal_resultObj (e : PublishLogEntry) (g : Nat)
    (hurl : ∀ u, e.url = some u → ∀ c ∈ u, plainChar c = true)
    (hmsg : ∀ c ∈ e.message, plainChar c = true) :
    parseVal (g + 6) (lbC :: entNest0 e) =
      some (entResultJson e, [rbC]) := by
  rw [parseVal_succ_lb]
  have hj : jskip (entNest0 e) = entNest0 e := by
    rw [entNest0]
    exact jskip_nws qtC _ (by decide)
  rw [hj, parseObjTail_qt2 _ _ (by rw [entNest0]; rfl),
    mems_nest0 e g hurl hmsg]
  simp [entResultJson]

/-- Serialized members of the log object from `result` on. -/
def entM5 (e : PublishLogEntry) : List Char :=
  qtC :: ("result".toList ++ qtC :: ':' :: ' ' :: (lbC :: entNest0 e))

theorem mems_m5 (e : PublishLogEntry) (g : Nat)
    (hurl : ∀ u, e.url = some u → ∀ c ∈ u, plainChar c = true)
    (hmsg : ∀ c ∈ e.message, plainChar c = true) :
    parseObjMems (g + 8) (entM5 e) =
      some ([("result".toList, entResultJson e)], []) := by
  rw [entM5, parseObjMems_key_step _ "result".toList _ (by decide)
    (jskip_nws lbC _ (by decide)),
    show g + 7 = g + 1 + 6 from by omega,
    parseVal_resultObj e (g + 1) hurl hmsg]
  simp +decide [jskip]

/-- Serialized members of the log object from `topics` on. -/
def entM4 (e : PublishLogEntry) : List Char :=
  qtC :: ("topics".toList ++ qtC :: ':' :: ' ' ::
    ('[' :: (jarrBody e.topics ++ ']' :: ',' :: ' ' :: entM5 e)))

theorem mems_m4 (e : PublishLogEntry) (g : Nat)
    (htop : ∀ t ∈ e.topics, ∀ c ∈ t, plainChar c = true)
    (hurl : ∀ u, e.url = some u → ∀ c ∈ u, plainChar c = true)
    (hmsg : ∀ c ∈ e.message, plainChar c = true) :
    parseObjMems (g + e.topics.length + 13) (entM4 e) =
      some ([("topics".toList, .arr (e.topics.map .str)),
             ("result".toList, entResultJson e)], []) := by
  have hj5 : jskip (entM5 e) = entM5 e := by
    rw [entM5]
    exact jskip_nws qtC _ (by decide)
  rw [entM4, parseObjMems_key_step _ "topics".toList _ (by decide)
    (jskip_nws '[' _ (by decide)),
    show g + e.topics.length + 12 = (g + 8) + e.topics.length + 4 from by omega,
    parseVal_arr (g + 8) e.topics _ htop]
  simp only [Option.some_bind]
  rw [jskip_nws ',' _ (by decide)]
  simp only [List.headD_cons, List.tail_cons]
  rw [if_pos (by trivial), jskip_space, hj5,
    show (g + 8) + e.topics.length + 4 = (g + e.topics.length + 4) + 8 from by
      omega,
    mems_m5 e (g + e.topics.length + 4) hurl hmsg]
  simp

/-- Serialized members of the log object from `image_count` on. -/
def entM3 (e : PublishLogEntry) : List Char :=
  qtC :: ("image_count".toList ++ qtC :: ':' :: ' ' ::
    (natDigits e.imageCount ++ ',' :: ' ' :: entM4 e))

theorem mems_m3 (e : PublishLogEntry) (g : Nat)
    (htop : ∀ t ∈ e.topics, ∀ c ∈ t, plainChar c = true)
    (hurl : ∀ u, e.url = some u → ∀ c ∈ u, plainChar c = true)
    (hmsg : ∀ c ∈ e.message, plainChar c = true) :
    parseObjMems (g + e.topics.length + 14) (entM3 e) =
      some ([("image_count".toList, .num e.imageCount),
             ("topics".toList, .arr (e.topics.map .str)),
             ("result".toList, entResultJson e)], []) := by
  obtain ⟨d, ds, hnd, hdig, _⟩ := natDigits_cons e.imageCount
  have hvskip : jskip (natDigits e.imageCount ++ ',' :: ' ' :: entM4 e) =
      natDigits e.imageCount ++ ',' :: ' ' :: entM4 e := by
    rw [hnd, List.cons_append]
    exact jskip_nws d _ (isDigit_not_jsonWs d hdig)
  have hj4 : jskip (entM4 e) = entM4 e := by
    rw [entM4]
    exact jskip_nws qtC _ (by decide)
  rw [entM3, parseObjMems_key_step _ "image_count".toList _ (by decide) hvskip,
    parseVal_num]
  simp only [Option.some_bind]
  rw [jskip_nws ',' _ (by decide)]
  simp only [List.headD_cons, List.tail_cons]
  rw [if_pos (by trivial), jskip_space, hj4, mems_m4 e g htop hurl hmsg]
  simp

/-- Serialized members of the log object from `content_length` on. -/
def entM2 (e : PublishLogEntry) : List Char :=
  qtC :: ("content_length".toList ++ qtC :: ':' :: ' ' ::
    (natDigits e.contentLength ++ ',' :: ' ' :: entM3 e))

theorem mems_m2 (e : PublishLogEntry) (g : Nat)
    (htop : ∀ t ∈ e.topics, ∀ c ∈ t, plainChar c = true)
    (hurl : ∀ u, e.url = some u → ∀ c ∈ u, plainChar c = true)
    (hmsg : ∀ c ∈ e.message, plainChar c = true) :
    parseObjMems (g + e.topics.length + 15) (entM2 e) =
      some ([("content_length".toList, .num e.contentLength),
             ("image_count".toList, .num e.imageCount),
             ("topics".toList, .arr (e.topics.map .str)),
             ("result".toList, entResultJson e)], []) := by
  obtain ⟨d, ds, hnd, hdig, _⟩ := natDigits_cons e.contentLength
  have hvskip : jskip (natDigits e.contentLength ++ ',' :: ' ' :: entM3 e) =
      natDigits e.contentLength ++ ',' :: ' ' :: entM3 e := by
    rw [hnd, List.cons_append]
    exact jskip_nws d _ (isDigit_not_jsonWs d hdig)
  have hj3 : jskip (entM3 e) = entM3 e := by
    rw [entM3]
    exact jskip_nws qtC _ (by decide)
  rw [entM2, parseObjMems_key_step _ "content_length".toList _ (by decide)
    hvskip, parseVal_num]
  simp only [Option.some_bind]
  rw [jskip_nws ',' _ (by decide)]
  simp only [List.headD_cons, List.tail_cons]
  rw [if_pos (by trivial), jskip_space, hj3, mems_m3 e g htop hurl hmsg]
  simp

/-- Serialized members of the log object from `title` on. -/
def entM1 (e : PublishLogEntry) : List Char :=
  qtC :: ("title".toList ++ qtC :: ':' :: ' ' ::
    (qtC :: (e.title ++ qtC :: ',' :: ' ' :: entM2 e)))

theorem mems_m1 (e : PublishLogEntry) (g : Nat)
    (hti : ∀ c ∈ e.title, plainChar c = true)
    (htop : ∀ t ∈ e.topics, ∀ c ∈ t, plainChar c = true)
    (hurl : ∀ u, e.url = some u → ∀ c ∈ u, plainChar c = true)
    (hmsg : ∀ c ∈ e.message, plainChar c = true) :
    parseObjMems (g + e.topics.length + 16) (entM1 e) =
      some ([("title".toList, .str e.title),
             ("content_length".toList, .num e.contentLength),
             ("image_count".toList, .num e.imageCount),
             ("topics".toList, .arr (e.topics.map .str)),
             ("result".toList, entResultJson e)], []) := by
  have hj2 : jskip (entM2 e) = entM2 e := by
    rw [entM2]
    exact jskip_nws qtC _ (by decide)
  rw [entM1, parseObjMems_key_step _ "title".toList _ (by decide)
    (jskip_nws qtC _ (by decide)),
    parseVal_succ_qt, parseStrBody_plain_closed e.title _ hti]
  simp only [Option.map_some', Option.some_bind]
  rw [jskip_nws ',' _ (by decide)]
  simp only [List.headD_cons, List.tail_cons]
  rw [if_pos (by trivial), jskip_space, hj2, mems_m2 e g htop hurl hmsg]
  simp

/-- The full serialized member list of the log object. -/
def entM0 (e : PublishLogEntry) : List Char :=
  qtC :: ("timestamp".toList ++ qtC :: ':' :: ' ' ::
    (qtC :: (e.timestamp ++ qtC :: ',' :: ' ' :: entM1 e)))

theorem mems_m0 (e : PublishLogEntry) (g : Nat)
    (hts : ∀ c ∈ e.timestamp, plainChar c = true)
    (hti : ∀ c ∈ e.title, plainChar c = true)
    (htop : ∀ t ∈ e.topics, ∀ c ∈ t, plainChar c = true)
    (hurl : ∀ u, e.url = some u → ∀ c ∈ u, plainChar c = true)
    (hmsg : ∀ c ∈ e.message, plainChar c = true) :
    parseObjMems (g + e.topics.length + 17) (entM0 e) =
      some ([("timestamp".toList, .str e.timestamp),
             ("title".toList, .str e.title),
             ("content_length".toList, .num e.contentLength),
             ("image_count".toList, .num e.imageCount),
             ("topics".toList, .arr (e.topics.map .str)),
             ("result".toList, entResultJson e)], []) := by
  have hj1 : jskip (entM1 e) = entM1 e := by
    rw [entM1]
    exact jskip_nws qtC _ (by decide)
  rw [entM0, parseObjMems_key_step _ "timestamp".toList _ (by decide)
    (jskip_nws qtC _ (by decide)),
    parseVal_succ_qt, parseStrBody_plain_closed e.timestamp _ hts]
  simp only [Option.map_some', Option.some_bind]
  rw [jskip_nws ',' _ (by decide)]
  simp only [List.headD_cons, List.tail_cons]
  rw [if_pos (by trivial), jskip_space, hj1, mems_m1 e g hti htop hurl hmsg]
  simp

theorem parseVal_entry (e : PublishLogEntry) (g : Nat)
    (hts : ∀ c ∈ e.timestamp, plainChar c = true)
    (hti : ∀ c ∈ e.title, plainChar c = true)
    (htop : ∀ t ∈ e.topics, ∀ c ∈ t, plainChar c = true)
    (hurl : ∀ u, e.url = some u → ∀ c ∈ u, plainChar c = true)
    (hmsg : ∀ c ∈ e.message, plainChar c = true) :
    parseVal (g + e.topics.length + 19) (lbC :: entM0 e) =
      some (entryJson e, []) := by
  rw [parseVal_succ_lb]
  have hj0 : jskip (entM0 e) = entM0 e := by
    rw [entM0]
    exact jskip_nws qtC _ (by decide)
  rw [hj0, parseObjTail_qt2 _ _ (by rw [entM0]; rfl),
    mems_m0 e g hts hti htop hurl hmsg]
  simp [entryJson, entResultJson]

/-- The serialized log line laid out as brace plus member list. -/
theorem jdumpEntry_canonical (e : PublishLogEntry)
    (hts : ∀ c ∈ e.timestamp, plainChar c = true)
    (hti : ∀ c ∈ e.title, plainChar c = true)
    (hurl : ∀ u, e.url = some u → ∀ c ∈ u, plainChar c = true)
    (hmsg : ∀ c ∈ e.message, plainChar c = true) :
    jdumpEntry e = lbC :: entM0 e := by
  cases hu : e.url with
  | none =>
    simp [jdumpEntry, entM0, entM1, entM2, entM3, entM4, entM5, entNest0,
      entNest1, entNest2, jstr, jarrStr, hu,
      escList_plain e.timestamp hts, escList_plain e.title hti,
      escList_plain e.message hmsg,
      escList_plain ['t', 'i', 'm', 'e', 's', 't', 'a', 'm', 'p'] (by decide),
      escList_plain ['t', 'i', 't', 'l', 'e'] (by decide),
      escList_plain
        ['c', 'o', 'n', 't', 'e', 'n', 't', '_', 'l', 'e', 'n', 'g', 't', 'h']
        (by decide),
      escList_plain ['i', 'm', 'a', 'g', 'e', '_', 'c', 'o', 'u', 'n', 't']
        (by decide),
      escList_plain ['t', 'o', 'p', 'i', 'c', 's'] (by decide),
      escList_plain ['r', 'e', 's', 'u', 'l', 't'] (by decide),
      escList_plain ['s', 'u', 'c', 'c', 'e', 's', 's'] (by decide),
      escList_plain ['u', 'r', 'l'] (by decide),
      escList_plain ['m', 'e', 's', 's', 'a', 'g', 'e'] (by decide),
      show (": ".toList : List Char) = ':' :: ' ' :: [] from rfl,
      show (", ".toList : List Char) = ',' :: ' ' :: [] from rfl,
      show ("null".toList : List Char) = 'n' :: 'u' :: 'l' :: 'l' :: [] from rfl]
  | some u =>
    simp [jdumpEntry, entM0, entM1, entM2, entM3, entM4, entM5, entNest0,
      entNest1, entNest2, jstr, jarrStr, hu,
      escList_plain e.timestamp hts, escList_plain e.title hti,
      escList_plain e.message hmsg, escList_plain u (hurl u hu),
      escList_plain ['t', 'i', 'm', 'e', 's', 't', 'a', 'm', 'p'] (by decide),
      escList_plain ['t', 'i', 't', 'l', 'e'] (by decide),
      escList_plain
        ['c', 'o', 'n', 't', 'e', 'n', 't', '_', 'l', 'e', 'n', 'g', 't', 'h']
        (by decide),
      escList_plain ['i', 'm', 'a', 'g', 'e', '_', 'c', 'o', 'u', 'n', 't']
        (by decide),
      escList_plain ['t', 'o', 'p', 'i', 'c', 's'] (by decide),
      escList_plain ['r', 'e', 's', 'u', 'l', 't'] (by decide),
      escList_plain ['s', 'u', 'c', 'c', 'e', 's', 's'] (by decide),
      escList_plain ['u', 'r', 'l'] (by decide),
      escList_plain ['m', 'e', 's', 's', 'a', 'g', 'e'] (by decide),
      show (": ".toList : List Char) = ':' :: ' ' :: [] from rfl,
      show (", ".toList : List Char) = ',' :: ' ' :: [] from rfl]

theorem jdumpEntry_length_ge (e : PublishLogEntry) :
    e.topics.length + 40 ≤ (jdumpEntry e).length := by
  have h := jarrBody_length_ge e.topics
  simp [jdumpEntry, jarrStr, jstr]
  omega

/-- A log line written for plain-character request data decodes back to the
entry's JSON value. -/
theorem jloadsL_entry (e : PublishLogEntry)
    (hts : ∀ c ∈ e.timestamp, plainChar c = true)
    (hti : ∀ c ∈ e.title, plainChar c = true)
    (htop : ∀ t ∈ e.topics, ∀ c ∈ t, plainChar c = true)
    (hurl : ∀ u, e.url = some u → ∀ c ∈ u, plainChar c = true)
    (hmsg : ∀ c ∈ e.message, plainChar c = true) :
    jloadsL (jdumpEntry e) = some (entryJson e) := by
  have hcan := jdumpEntry_canonical e hts hti hurl hmsg
  have hlen := jdumpEntry_length_ge e
  rw [hcan] at hlen
  unfold jloadsL
  rw [hcan, jskip_nws lbC _ (by decide)]
  have hfuel : 3 * (lbC :: entM0 e).length + 3 =
      (3 * (lbC :: entM0 e).length + 3 - (e.topics.length + 19)) +
        e.topics.length + 19 := by
    omega
  rw [hfuel, parseVal_entry e _ hts hti htop hurl hmsg]
  simp [jskip]

theorem pyStrip_head_visible (c : Char) (r : List Char) (hc : pyWs c = false) :
    (pyStrip (c :: r)).isEmpty = false := by
  unfold pyStrip pyLstrip pyRstrip
  rw [List.dropWhile_cons, if_neg (by simp [hc])]
  cases h : (c :: r).reverse.dropWhile pyWs with
  | nil =>
    exfalso
    rw [List.dropWhile_eq_nil_iff] at h
    have := h c (by simp)
    rw [hc] at this
    cases this
  | cons d t =>
    simp

/-- Appending one non-blank line raises the daily count by exactly one,
whatever the line's success flag says. -/
theorem countTodayPosts_append (lines : List (List Char)) (l : List Char)
    (hl : (pyStrip l).isEmpty = false) :
    countTodayPosts (lines ++ [l]) = countTodayPosts lines + 1 := by
  simp [countTodayPosts, List.filter_append, hl]

/-- A persisted log line contributes its title to the dedup set. -/
theorem getPublishedTopics_append (files : List (List (List Char)))
    (e : PublishLogEntry)
    (hts : ∀ c ∈ e.timestamp, plainChar c = true)
    (hti : ∀ c ∈ e.title, plainChar c = true)
    (htop : ∀ t ∈ e.topics, ∀ c ∈ t, plainChar c = true)
    (hurl : ∀ u, e.url = some u → ∀ c ∈ u, plainChar c = true)
    (hmsg : ∀ c ∈ e.message, plainChar c = true)
    (htne : e.title.isEmpty = false) :
    getPublishedTopics (files ++ [[jdumpEntry e]]) =
      getPublishedTopics files ++ [.str e.title] := by
  unfold getPublishedTopics
  rw [List.foldl_append]
  simp only [List.foldl_cons, List.foldl_nil]
  rw [addFileTopics, jloadsL_entry e hts hti htop hurl hmsg]
  simp +decide [entryJson, jlookup, jtruthy, htne, addFileTopics]

theorem jmem_append_str (acc : List Json) (s : List Char) :
    jmem (.str s) (acc ++ [.str s]) = true := by
  simp [jmem, List.any_append]
  right
  simp [Json.beq]

/-- The log record xhs_publish.py `main` builds for a publish call that
returned with `success = False`. -/
def c10Entry (args : PubArgs) (url : Option (List Char)) (msg ts : List Char) :
    PublishLogEntry :=
  { timestamp := ts, title := args.title,
    contentLength := args.content.length,
    imageCount := (parseListArg args.images).length,
    topics := parseListArg args.topics,
    success := false, url := url, message := msg }

/-- C10: the daily quota count is the number of non-blank lines of today's
log, blind to each entry's success flag; a publish call that returns a
rejection still appends its entry, so the failed attempt consumes one unit
of the next day's-quota count and its title lands in the dedup set that
`get_published_topics` extracts. -/
theorem C10_failed_attempts_consume_quota
    (args : PubArgs) (fex : List Char → Bool) (url : Option (List Char))
    (msg ts : List Char) (today : List (List Char))
    (files : List (List (List Char)))
    (h50 : args.title.length ≤ 50) (h1000 : args.content.length ≤ 1000)
    (himg : validImages (parseListArg args.images) fex = true)
    (h10 : (parseListArg args.topics).length ≤ 10)
    (hdry : args.dryRun = false)
    (hts : ∀ c ∈ ts, plainChar c = true)
    (hti : ∀ c ∈ args.title, plainChar c = true)
    (htop : ∀ t ∈ parseListArg args.topics, ∀ c ∈ t, plainChar c = true)
    (hurl : ∀ u, url = some u → ∀ c ∈ u, plainChar c = true)
    (hmsg : ∀ c ∈ msg, plainChar c = true)
    (htne : args.title.isEmpty = false) :
    publishMain args true fex (.returns false url msg) ts =
      (.rejected msg, [jdumpEntry (c10Entry args url msg ts)]) ∧
    countTodayPosts (today ++ [jdumpEntry (c10Entry args url msg ts)]) =
      countTodayPosts today + 1 ∧
    jmem (.str args.title)
      (getPublishedTopics
        (files ++ [[jdumpEntry (c10Entry args url msg ts)]])) = true := by
  refine ⟨?_, ?_, ?_⟩
  · simp only [publishMain]
    rw [if_neg (by decide : ¬((!true) = true)),
      if_neg (by omega : ¬(args.title.length > 50)),
      if_neg (by omega : ¬(args.content.length > 1000)),
      if_neg (by simp [himg]),
      if_neg (by omega : ¬((parseListArg args.topics).length > 10)),
      if_neg (by simp [hdry])]
    simp [c10Entry]
  · apply countTodayPosts_append
    rw [jdumpEntry_canonical (c10Entry args url msg ts) hts hti hurl hmsg]
    exact pyStrip_head_visible lbC _ (by decide)
  · rw [getPublishedTopics_append files (c10Entry args url msg ts)
      hts hti htop hurl hmsg htne]
    exact jmem_append_str _ _

/-- Witness for C10 at a concrete rejected publish. -/
theorem C10_failed_attempts_consume_quota_witness :
    publishMain ⟨['t', '1'], ['c'], ['/', 'a', '/', 'x', '.', 'p', 'n', 'g'],
        [], false⟩ true (fun _ => true) (.returns false none ['n', 'o'])
        ['d', '1'] =
      (.rejected ['n', 'o'],
       [jdumpEntry (c10Entry ⟨['t', '1'], ['c'],
          ['/', 'a', '/', 'x', '.', 'p', 'n', 'g'], [], false⟩ none
          ['n', 'o'] ['d', '1'])]) ∧
    countTodayPosts ([] ++ [jdumpEntry (c10Entry ⟨['t', '1'], ['c'],
        ['/', 'a', '/', 'x', '.', 'p', 'n', 'g'], [], false⟩ none
        ['n', 'o'] ['d', '1'])]) = countTodayPosts [] + 1 ∧
    jmem (.str ['t', '1'])
      (getPublishedTopics ([] ++ [[jdumpEntry (c10Entry ⟨['t', '1'], ['c'],
        ['/', 'a', '/', 'x', '.', 'p', 'n', 'g'], [], false⟩ none
        ['n', 'o'] ['d', '1'])]])) = true :=
  C10_failed_attempts_consume_quota
    ⟨['t', '1'], ['c'], ['/', 'a', '/', 'x', '.', 'p', 'n', 'g'], [], false⟩
    (fun _ => true) none ['n', 'o'] ['d', '1'] [] []
    (by decide) (by decide) (by decide) (by decide) (by decide) (by decide)
    (by decide) (by decide) (fun u hu => by simp at hu) (by decide) (by decide)

end XhsPipeline
